import Mathlib

/-!
# Verification of the connectsphere chat server (`src/server.js`)

Shallow embedding of the server's in-memory state and socket event
handlers.  JavaScript objects used as dictionaries (`teams`,
`roomMessages`, `roomUserCounts`, and the per-socket fields) are
modelled as association lists with JS-object semantics: assignment
replaces the value of an existing key in place, otherwise appends the
new key at the end; `delete` removes the key.  JS truthiness of the
string-valued fields is modelled by comparison with the empty string
(`undefined` collapses to `""`, which is equally falsy and is never a
valid team code or user name in the code paths involved).
-/

namespace ConnectSphere

/-- JS object field read: `obj[k]`, `none` for an absent key. -/
def getKey? {κ α : Type} [DecidableEq κ] : List (κ × α) → κ → Option α
  | [], _ => none
  | (k', v) :: rest, k => if k' = k then some v else getKey? rest k

/-- JS object field write: `obj[k] = v` (replace in place, else append). -/
def setKey {κ α : Type} [DecidableEq κ] : List (κ × α) → κ → α → List (κ × α)
  | [], k, v => [(k, v)]
  | (k', v') :: rest, k, v =>
      if k' = k then (k, v) :: rest else (k', v') :: setKey rest k v

/-- JS `delete obj[k]`. -/
def delKey {κ α : Type} [DecidableEq κ] : List (κ × α) → κ → List (κ × α)
  | [], _ => []
  | (k', v') :: rest, k => if k' = k then rest else (k', v') :: delKey rest k

/-- The keys of an association list, in order. -/
def keysOf {κ α : Type} (m : List (κ × α)) : List κ := m.map Prod.fst

/-! ## JS `findIndex` -/

/-- `arr.findIndex(p)`, with `-1` modelled as `none`. -/
def findIndexJs {α : Type} (p : α → Bool) : List α → Option Nat
  | [] => none
  | x :: xs => if p x then some 0 else (findIndexJs p xs).map (· + 1)

/-- `(roomUserCounts[teamCode] || 1)`: `undefined` and `0` are falsy. -/
def prevCount : Option Nat → Nat
  | none => 1
  | some 0 => 1
  | some n => n

/-! ## Data model -/

/-- A chat message as stored in `roomMessages`.  Join/leave notices carry
`system := true` and no author name; chat messages carry the author's
name.  The `ts` field (an ISO timestamp string in the source) is modelled
by the numeric event time from which it is derived. -/
structure Message where
  id : String
  system : Bool
  name : Option String
  text : String
  ts : Nat
  deriving DecidableEq, Repr

/-- The per-socket fields the handlers read and write
(`socket.teamCode`, `socket.userName`) plus whether the socket is still
open. -/
structure Session where
  teamCode : Option String
  userName : Option String
  connected : Bool
  deriving DecidableEq, Repr

/-- The whole server state: the team registry (`teams`), the per-room
message logs (`roomMessages`), the per-room member counts
(`roomUserCounts`) and the sessions keyed by connection id. -/
structure ServerState where
  teams : List (String × String)
  roomMessages : List (String × List Message)
  roomUserCounts : List (String × Nat)
  sessions : List (Nat × Session)
  deriving DecidableEq, Repr

/-- Socket events, each carrying the environment inputs the handler
consumes (`t` for `Date.now()`, `r` for the `Math.random()` suffix). -/
inductive Event where
  | connect (conn : Nat)
  | joinRoom (conn : Nat) (teamCode name : String) (t r : Nat)
  | sendMessage (conn : Nat) (text : String) (t r : Nat)
  | deleteMessage (conn : Nat) (id : String)
  | disconnect (conn : Nat) (t r : Nat)
  deriving DecidableEq, Repr

/-- Observable outputs of one handler run: acknowledgments to the caller
and emissions on the real-time channel. -/
inductive Effect where
  | ack (conn : Nat) (ok : Bool) (error : Option String)
  | roomHistory (conn : Nat) (msgs : List Message)
  | message (code : String) (m : Message)
  | deleteNotice (code : String) (id : String)
  deriving DecidableEq, Repr

/-- Collapse an absent JS field to the empty string; both are falsy and
the handlers only use the value when it is truthy. -/
def strOf : Option String → String
  | none => ""
  | some s => s

/-- Whitespace for the purposes of `String.prototype.trim`. -/
def isSpaceChar (c : Char) : Bool :=
  c = ' ' || c = '\t' || c = '\n' || c = '\r'

/-- `s.trim()` over the character list. -/
def jsTrim (s : String) : String :=
  String.mk (((s.data.dropWhile isSpaceChar).reverse.dropWhile isSpaceChar).reverse)

/-- `s.toUpperCase()` over the character list. -/
def jsToUpper (s : String) : String := String.mk (s.data.map Char.toUpper)

/-- `s.slice(0, n)` over the character list. -/
def jsTake (s : String) (n : Nat) : String := String.mk (s.data.take n)

/-- `teamCode = String(teamCode).trim().toUpperCase()`. -/
def normalizeCode (s : String) : String := jsToUpper (jsTrim s)

/-- `name = String(name).trim().slice(0, 50)`. -/
def normalizeName (s : String) : String := jsTake (jsTrim s) 50

/-- `'sys-' + Date.now() + '-' + Math.floor(Math.random() * 1000)`. -/
def sysId (t r : Nat) : String := "sys-" ++ toString t ++ "-" ++ toString r

/-- `'m-' + Date.now() + '-' + Math.floor(Math.random() * 10000)`. -/
def msgId (t r : Nat) : String := "m-" ++ toString t ++ "-" ++ toString r

/-- The room log for a code, the empty log when the entry is absent
(`roomMessages[teamCode] || []`). -/
def logOf (s : ServerState) (code : String) : List Message :=
  (getKey? s.roomMessages code).getD []

/-- The stored member count for a code, `0` when absent. -/
def memberCountOf (s : ServerState) (code : String) : Nat :=
  (getKey? s.roomUserCounts code).getD 0

/-! ## Socket event handlers (`src/server.js` lines 78-184) -/

/-- `join-room` handler (lines 79-112). -/
def handleJoin (s : ServerState) (conn : Nat) (sess : Session)
    (teamCode name : String) (t r : Nat) : ServerState × List Effect :=
  if teamCode = "" ∨ name = "" then
    (s, [.ack conn false (some "Missing teamCode or name")])
  else
    let tc := normalizeCode teamCode
    let nm := normalizeName name
    if (getKey? s.teams tc).isNone then
      (s, [.ack conn false (some "Team code not found")])
    else
      let sessions' := setKey s.sessions conn
        { sess with teamCode := some tc, userName := some nm }
      let counts' := setKey s.roomUserCounts tc
        ((getKey? s.roomUserCounts tc).getD 0 + 1)
      let msgs0 := logOf s tc
      let joinNotice : Message :=
        { id := sysId t r, system := true, name := none,
          text := nm ++ " joined the chat", ts := t }
      ({ s with sessions := sessions', roomUserCounts := counts',
                roomMessages := setKey s.roomMessages tc (msgs0 ++ [joinNotice]) },
       [.roomHistory conn msgs0, .message tc joinNotice, .ack conn true none])

/-- `send-message` handler (lines 114-137). -/
def handleSend (s : ServerState) (conn : Nat) (sess : Session)
    (payloadText : String) (t r : Nat) : ServerState × List Effect :=
  let teamCode := strOf sess.teamCode
  let name := strOf sess.userName
  if teamCode = "" ∨ name = "" then
    (s, [.ack conn false (some "You are not in a room")])
  else
    let text := jsTrim payloadText
    if text = "" then
      (s, [.ack conn false (some "Empty message")])
    else
      let msg : Message :=
        { id := msgId t r, system := false, name := some name,
          text := text, ts := t }
      let msgs' := logOf s teamCode ++ [msg]
      ({ s with roomMessages := setKey s.roomMessages teamCode msgs' },
       [.message teamCode msg, .ack conn true none])

/-- `delete-message` handler (lines 140-159).  Note that
`const arr = roomMessages[teamCode] = roomMessages[teamCode] || []`
assigns the entry back even when the lookup then fails. -/
def handleDelete (s : ServerState) (conn : Nat) (sess : Session)
    (id : String) : ServerState × List Effect :=
  let teamCode := strOf sess.teamCode
  if teamCode = "" then
    (s, [.ack conn false (some "Not in room")])
  else if id = "" then
    (s, [.ack conn false (some "No id")])
  else
    let arr := logOf s teamCode
    let s1 := { s with roomMessages := setKey s.roomMessages teamCode arr }
    match findIndexJs (fun m => m.id == id) arr with
    | none => (s1, [.ack conn false (some "Message not found")])
    | some idx =>
        ({ s1 with
            roomMessages := setKey s1.roomMessages teamCode (arr.eraseIdx idx) },
         [.deleteNotice teamCode id, .ack conn true none])

/-- `disconnect` handler (lines 161-183).  The socket has closed before
the handler runs, so the session is marked as no longer connected. -/
def handleDisconnect (s : ServerState) (conn : Nat) (sess : Session)
    (t r : Nat) : ServerState × List Effect :=
  let sessions' := setKey s.sessions conn { sess with connected := false }
  let s0 := { s with sessions := sessions' }
  let teamCode := strOf sess.teamCode
  if teamCode = "" then
    (s0, [])
  else
    -- `Math.max(0, (roomUserCounts[teamCode] || 1) - 1)`; `0` is falsy
    let newCount := prevCount (getKey? s.roomUserCounts teamCode) - 1
    let s1 := { s0 with roomUserCounts := setKey s.roomUserCounts teamCode newCount }
    if newCount > 0 then
      let leaveNotice : Message :=
        { id := sysId t r, system := true, name := none,
          text := (if strOf sess.userName = "" then "A user"
                   else strOf sess.userName) ++ " left the chat",
          ts := t }
      let msgs' := logOf s teamCode ++ [leaveNotice]
      ({ s1 with roomMessages := setKey s1.roomMessages teamCode msgs' },
       [.message teamCode leaveNotice])
    else
      ({ s1 with roomMessages := delKey s1.roomMessages teamCode }, [])

/-- Dispatch one socket event.  Events on an unknown or already-closed
socket are dropped: the transport cannot deliver them. -/
def applyEvent (s : ServerState) (e : Event) : ServerState × List Effect :=
  match e with
  | .connect conn =>
      match getKey? s.sessions conn with
      | some _ => (s, [])
      | none =>
          ({ s with sessions := s.sessions ++ [(conn, ⟨none, none, true⟩)] }, [])
  | .joinRoom conn tc nm t r =>
      match getKey? s.sessions conn with
      | some sess =>
          if sess.connected then handleJoin s conn sess tc nm t r else (s, [])
      | none => (s, [])
  | .sendMessage conn text t r =>
      match getKey? s.sessions conn with
      | some sess =>
          if sess.connected then handleSend s conn sess text t r else (s, [])
      | none => (s, [])
  | .deleteMessage conn id =>
      match getKey? s.sessions conn with
      | some sess =>
          if sess.connected then handleDelete s conn sess id else (s, [])
      | none => (s, [])
  | .disconnect conn t r =>
      match getKey? s.sessions conn with
      | some sess =>
          if sess.connected then handleDisconnect s conn sess t r else (s, [])
      | none => (s, [])

/-- Run a trace of events from a state. -/
def applyTrace (s : ServerState) : List Event → ServerState
  | [] => s
  | e :: es => applyTrace (applyEvent s e).1 es

/-- The state at process start: a registry loaded from disk, no rooms,
no counts, no sessions. -/
def initState (teams : List (String × String)) : ServerState :=
  { teams := teams, roomMessages := [], roomUserCounts := [], sessions := [] }

/-! ## Team creation (`src/server.js` lines 45-66) -/

/-- The restricted alphabet of line 46 (ambiguous characters removed). -/
def codeChars : List Char := "ABCDEFGHJKLMNPQRSTUVWXYZ23456789".toList

/-- `makeTeamCode(6)` applied to one draw of six random indices. -/
def makeTeamCode (g : Fin 6 → Fin 32) : String :=
  String.mk ((List.finRange 6).map (fun i => codeChars.getD (g i).val 'A'))

/-- Outcome of the `/create-team` handler. -/
inductive CreateResult where
  | conflict
  | noFresh
  | ok (teams' : List (String × String)) (code : String)
  deriving DecidableEq, Repr

/-- `if (customCode) customCode = String(customCode).trim().toUpperCase()`:
the request's custom code after the truthiness check and normalization,
with an absent field collapsing to the falsy `""`. -/
def customOf : Option String → String
  | none => ""
  | some c => if c = "" then "" else normalizeCode c

/-- `/create-team` handler (lines 52-66).  `cands` supplies the stream
of random draws consumed by successive `makeTeamCode(6)` calls;
`noFresh` stands for the retry loop never finding a fresh code. -/
def createTeam (teams : List (String × String)) (customCode : Option String)
    (cands : List (Fin 6 → Fin 32)) (createdAt : String) : CreateResult :=
  let custom : String := customOf customCode
  if custom ≠ "" then
    if (getKey? teams custom).isSome then .conflict
    else .ok (setKey teams custom createdAt) custom
  else
    match cands.find? (fun gg => (getKey? teams (makeTeamCode gg)).isNone) with
    | some gg => .ok (setKey teams (makeTeamCode gg) createdAt) (makeTeamCode gg)
    | none => .noFresh

/-- The `teamCode` field of a connection's session, `none` when the
connection is unknown or the field was never set. -/
def teamCodeOf (s : ServerState) (conn : Nat) : Option String :=
  match getKey? s.sessions conn with
  | none => none
  | some sess => sess.teamCode

/-! ## C1: member counts -/

/-- A session entry is attached to a code when its socket is open and
its `teamCode` points at the code. -/
def attachedP (code : String) (p : Nat × Session) : Bool :=
  p.2.connected && p.2.teamCode == some code

/-- The number of currently-attached sessions for a code. -/
def countAttached (s : ServerState) (code : String) : Nat :=
  s.sessions.countP (attachedP code)

/-- One event respects the spec's state machine for joins: a `join-room`
event only reaches a connection whose session has no `teamCode` yet. -/
def eventOk (s : ServerState) : Event → Bool
  | .joinRoom conn _ _ _ _ =>
      (match getKey? s.sessions conn with
       | some sess => sess.teamCode.isNone
       | none => true)
  | _ => true

/-- Trace discipline for the amended C1: every join in the trace is
delivered to a connection still in the `Unjoined` state. -/
def unjoinedOk (s : ServerState) : List Event → Bool
  | [] => true
  | e :: es => eventOk s e && unjoinedOk (applyEvent s e).1 es

/-- The inductive invariant behind C1: session keys are unique, the
registry has no entry for the empty string, no session ever stores the
empty string as its code, and the stored member count of every code
agrees with the number of attached sessions. -/
def MemberInv (s : ServerState) : Prop :=
  (keysOf s.sessions).Nodup ∧
  getKey? s.teams "" = none ∧
  (∀ conn sess, getKey? s.sessions conn = some sess → sess.teamCode ≠ some "") ∧
  (∀ code, memberCountOf s code = countAttached s code)

/-! ## C9: message-id uniqueness -/

/-- The ids of a message log, in order. -/
def idsOf (l : List Message) : List String := l.map Message.id

/-- The invariant: every stored room log has pairwise-distinct ids. -/
def IdsInv (s : ServerState) : Prop :=
  ∀ entry ∈ s.roomMessages, (idsOf entry.2).Nodup

/-- One event's generated id (if the handler reaches the point of
building a message) collides with no id already stored anywhere. -/
def freshOk1 (s : ServerState) : Event → Bool
  | .joinRoom _ _ _ t r =>
      s.roomMessages.all (fun entry => entry.2.all (fun m => !(m.id == sysId t r)))
  | .sendMessage _ _ t r =>
      s.roomMessages.all (fun entry => entry.2.all (fun m => !(m.id == msgId t r)))
  | .disconnect _ t r =>
      s.roomMessages.all (fun entry => entry.2.all (fun m => !(m.id == sysId t r)))
  | _ => true

/-- Trace discipline for the amended C9: every generated id is fresh at
the moment it is generated (which the timestamp+random scheme does not
itself guarantee). -/
def freshOk (s : ServerState) : List Event → Bool
  | [] => true
  | e :: es => freshOk1 s e && freshOk (applyEvent s e).1 es

/-! ## Lemmas and theorems -/

section MapLemmas

variable {κ α : Type} [DecidableEq κ]

@[simp] theorem getKey?_nil (k : κ) : getKey? ([] : List (κ × α)) k = none := rfl

@[simp] theorem getKey?_cons (k' : κ) (v : α) (rest : List (κ × α)) (k : κ) :
    getKey? ((k', v) :: rest) k = if k' = k then some v else getKey? rest k := rfl

theorem getKey?_setKey_self (m : List (κ × α)) (k : κ) (v : α) :
    getKey? (setKey m k v) k = some v := by
  induction m with
  | nil => simp [setKey]
  | cons p rest ih =>
      obtain ⟨k', v'⟩ := p
      by_cases h : k' = k <;> simp [setKey, h, ih]

theorem getKey?_setKey_ne (m : List (κ × α)) (k k' : κ) (v : α) (hne : k ≠ k') :
    getKey? (setKey m k v) k' = getKey? m k' := by
  induction m with
  | nil => simp [setKey, hne]
  | cons p rest ih =>
      obtain ⟨k₀, v₀⟩ := p
      by_cases h : k₀ = k
      · subst h
        simp [setKey, hne]
      · by_cases h' : k₀ = k'
        · subst h'
          simp [setKey, h]
        · simp [setKey, h, h', ih]

theorem getKey?_delKey_self (m : List (κ × α)) (k : κ)
    (hnd : (keysOf m).Nodup) : getKey? (delKey m k) k = none := by
  induction m with
  | nil => simp [delKey]
  | cons p rest ih =>
      obtain ⟨k₀, v₀⟩ := p
      simp only [keysOf, List.map_cons, List.nodup_cons] at hnd
      by_cases h : k₀ = k
      · subst h
        simp only [delKey, if_pos rfl]
        cases hg : getKey? rest k₀ with
        | none => exact hg
        | some v =>
            exfalso
            apply hnd.1
            clear ih hnd
            induction rest with
            | nil => simp [getKey?] at hg
            | cons q tail ih2 =>
                obtain ⟨kq, vq⟩ := q
                simp only [getKey?_cons] at hg
                by_cases hq : kq = k₀
                · subst hq
                  simp [keysOf]
                · simp only [if_neg hq] at hg
                  simp only [keysOf, List.map_cons, List.mem_cons]
                  exact Or.inr (by
                    have := ih2 hg
                    simpa [keysOf] using this)
      · simp only [delKey, if_neg h, getKey?_cons, if_neg h]
        exact ih (by simpa [keysOf] using hnd.2)

theorem getKey?_delKey_ne (m : List (κ × α)) (k k' : κ) (hne : k ≠ k')
    (hnd : (keysOf m).Nodup) : getKey? (delKey m k) k' = getKey? m k' := by
  induction m with
  | nil => simp [delKey]
  | cons p rest ih =>
      obtain ⟨k₀, v₀⟩ := p
      simp only [keysOf, List.map_cons, List.nodup_cons] at hnd
      by_cases h : k₀ = k
      · subst h
        simp [delKey, hne]
      · simp only [delKey, if_neg h, getKey?_cons]
        by_cases h' : k₀ = k'
        · simp [h']
        · simp only [if_neg h']
          exact ih (by simpa [keysOf] using hnd.2)

theorem keysOf_setKey (m : List (κ × α)) (k : κ) (v : α) :
    keysOf (setKey m k v) = if (getKey? m k).isSome then keysOf m
      else keysOf m ++ [k] := by
  induction m with
  | nil => simp [setKey, keysOf]
  | cons p rest ih =>
      obtain ⟨k₀, v₀⟩ := p
      by_cases h : k₀ = k
      · subst h
        simp [setKey, keysOf]
      · simp only [setKey, if_neg h, keysOf, List.map_cons, getKey?_cons, if_neg h]
        rw [show (List.map Prod.fst (setKey rest k v)) = keysOf (setKey rest k v) from rfl, ih]
        by_cases hs : (getKey? rest k).isSome <;> simp [hs, keysOf]

theorem nodup_keys_setKey (m : List (κ × α)) (k : κ) (v : α)
    (hnd : (keysOf m).Nodup) : (keysOf (setKey m k v)).Nodup := by
  rw [keysOf_setKey]
  by_cases hs : (getKey? m k).isSome
  · simpa [hs]
  · simp only [hs, if_false]
    refine List.Nodup.append hnd (List.nodup_singleton k) ?_
    intro a ha hb
    simp only [List.mem_singleton] at hb
    subst hb
    -- a key in the list has a value, contradicting absence
    have : (getKey? m a).isSome := by
      clear hnd hs
      induction m with
      | nil => simp [keysOf] at ha
      | cons p rest ih =>
          obtain ⟨k₀, v₀⟩ := p
          simp only [keysOf, List.map_cons, List.mem_cons] at ha
          by_cases h : k₀ = a
          · simp [h]
          · simp only [getKey?_cons, if_neg h]
            exact ih (ha.resolve_left (fun hh => h hh.symm))
    exact hs this

theorem nodup_keys_delKey (m : List (κ × α)) (k : κ)
    (hnd : (keysOf m).Nodup) : (keysOf (delKey m k)).Nodup := by
  induction m with
  | nil => simp [delKey, keysOf]
  | cons p rest ih =>
      obtain ⟨k₀, v₀⟩ := p
      simp only [keysOf, List.map_cons, List.nodup_cons] at hnd
      by_cases h : k₀ = k
      · subst h
        simpa [delKey, keysOf] using hnd.2
      · simp only [delKey, if_neg h, keysOf, List.map_cons, List.nodup_cons]
        constructor
        · intro hmem
          apply hnd.1
          have : keysOf (delKey rest k) ⊆ keysOf rest := by
            clear ih hnd hmem
            induction rest with
            | nil => simp [delKey]
            | cons q tail ih2 =>
                obtain ⟨kq, vq⟩ := q
                by_cases hq : kq = k
                · subst hq
                  simp only [delKey, if_pos rfl, keysOf, List.map_cons]
                  exact fun a ha => List.mem_cons_of_mem _ ha
                · simp only [delKey, if_neg hq, keysOf, List.map_cons]
                  intro a ha
                  rcases List.mem_cons.mp ha with h1 | h2
                  · exact List.mem_cons.mpr (Or.inl h1)
                  · exact List.mem_cons.mpr (Or.inr (ih2 h2))
          exact this hmem
        · exact ih hnd.2

theorem setKey_eq_self (m : List (κ × α)) (k : κ) (v : α)
    (h : getKey? m k = some v) : setKey m k v = m := by
  induction m with
  | nil => simp [getKey?] at h
  | cons p rest ih =>
      obtain ⟨k₀, v₀⟩ := p
      by_cases hk : k₀ = k
      · subst hk
        rw [getKey?_cons, if_pos rfl] at h
        injection h with hv
        simp [setKey, hv]
      · simp only [getKey?_cons, if_neg hk] at h
        simp [setKey, hk, ih h]

end MapLemmas

theorem getKey?_eq_none_iff {κ α : Type} [DecidableEq κ] (m : List (κ × α)) (k : κ) :
    getKey? m k = none ↔ k ∉ keysOf m := by
  induction m with
  | nil => simp [keysOf]
  | cons p rest ih =>
      obtain ⟨k₀, v₀⟩ := p
      simp only [getKey?_cons, keysOf, List.map_cons, List.mem_cons]
      by_cases h : k₀ = k
      · subst h
        simp
      · rw [if_neg h, ih]
        simp only [keysOf]
        constructor
        · intro hnk hor
          rcases hor with h1 | h2
          · exact h h1.symm
          · exact hnk h2
        · intro hnk h2
          exact hnk (Or.inr h2)

theorem getKey?_append_single {κ α : Type} [DecidableEq κ]
    (m : List (κ × α)) (k k' : κ) (v : α) :
    getKey? (m ++ [(k, v)]) k' =
      match getKey? m k' with
      | some w => some w
      | none => if k = k' then some v else none := by
  induction m with
  | nil => simp [getKey?]
  | cons p rest ih =>
      obtain ⟨k₀, v₀⟩ := p
      by_cases h : k₀ = k' <;> simp [getKey?, h, ih]

theorem mem_of_getKey? {κ α : Type} [DecidableEq κ]
    (m : List (κ × α)) (k : κ) (v : α) (h : getKey? m k = some v) : (k, v) ∈ m := by
  induction m with
  | nil => simp [getKey?] at h
  | cons p rest ih =>
      obtain ⟨k₀, v₀⟩ := p
      by_cases hk : k₀ = k
      · subst hk
        rw [getKey?_cons, if_pos rfl] at h
        injection h with hv
        subst hv
        exact List.mem_cons_self _ _
      · rw [getKey?_cons, if_neg hk] at h
        exact List.mem_cons_of_mem _ (ih h)

theorem mem_setKey {κ α : Type} [DecidableEq κ]
    (m : List (κ × α)) (k : κ) (v : α) (e : κ × α) (he : e ∈ setKey m k v) :
    e = (k, v) ∨ e ∈ m := by
  induction m with
  | nil => simpa [setKey] using he
  | cons p rest ih =>
      obtain ⟨k₀, v₀⟩ := p
      by_cases h : k₀ = k
      · subst h
        rw [setKey, if_pos rfl] at he
        rcases List.mem_cons.mp he with h1 | h2
        · exact Or.inl h1
        · exact Or.inr (List.mem_cons_of_mem _ h2)
      · rw [setKey, if_neg h] at he
        rcases List.mem_cons.mp he with h1 | h2
        · exact Or.inr (h1 ▸ List.mem_cons_self _ _)
        · rcases ih h2 with h3 | h4
          · exact Or.inl h3
          · exact Or.inr (List.mem_cons_of_mem _ h4)

theorem mem_delKey {κ α : Type} [DecidableEq κ]
    (m : List (κ × α)) (k : κ) (e : κ × α) (he : e ∈ delKey m k) : e ∈ m := by
  induction m with
  | nil => simp [delKey] at he
  | cons p rest ih =>
      obtain ⟨k₀, v₀⟩ := p
      by_cases h : k₀ = k
      · subst h
        rw [delKey, if_pos rfl] at he
        exact List.mem_cons_of_mem _ he
      · rw [delKey, if_neg h] at he
        rcases List.mem_cons.mp he with h1 | h2
        · exact h1 ▸ List.mem_cons_self _ _
        · exact List.mem_cons_of_mem _ (ih h2)

/-- Counting sessions by a predicate on the value is shifted by a
`setKey` exactly by the difference the predicate sees on the old and the
new value, when the keys are unique. -/
theorem countP_snd_setKey {α : Type} (m : List (Nat × α)) (k : Nat)
    (v v' : α) (q : α → Bool)
    (hnd : (keysOf m).Nodup) (hget : getKey? m k = some v) :
    (setKey m k v').countP (fun p => q p.2) + (if q v then 1 else 0)
      = m.countP (fun p => q p.2) + (if q v' then 1 else 0) := by
  induction m with
  | nil => simp [getKey?] at hget
  | cons p rest ih =>
      obtain ⟨k₀, v₀⟩ := p
      simp only [keysOf, List.map_cons, List.nodup_cons] at hnd
      by_cases h : k₀ = k
      · subst h
        rw [getKey?_cons, if_pos rfl] at hget
        injection hget with hv
        subst hv
        rw [setKey, if_pos rfl]
        simp only [List.countP_cons]
        split_ifs <;> omega
      · rw [getKey?_cons, if_neg h] at hget
        rw [setKey, if_neg h]
        simp only [List.countP_cons]
        have := ih (by simpa [keysOf] using hnd.2) hget
        split_ifs at this ⊢ <;> omega

theorem countP_snd_pos_of_getKey {α : Type} (m : List (Nat × α)) (k : Nat)
    (v : α) (q : α → Bool) (hget : getKey? m k = some v) (hq : q v = true) :
    1 ≤ m.countP (fun p => q p.2) := by
  induction m with
  | nil => simp [getKey?] at hget
  | cons p rest ih =>
      obtain ⟨k₀, v₀⟩ := p
      by_cases h : k₀ = k
      · subst h
        rw [getKey?_cons, if_pos rfl] at hget
        injection hget with hv
        subst hv
        simp [List.countP_cons, hq]
      · rw [getKey?_cons, if_neg h] at hget
        simp only [List.countP_cons]
        have := ih hget
        omega

theorem countP_snd_append_single {α : Type} (m : List (Nat × α)) (k : Nat)
    (v : α) (q : α → Bool) :
    (m ++ [(k, v)]).countP (fun p => q p.2)
      = m.countP (fun p => q p.2) + (if q v then 1 else 0) := by
  rw [List.countP_append]
  simp [List.countP_cons]

theorem findIndexJs_eq_none_iff {α : Type} (p : α → Bool) (l : List α) :
    findIndexJs p l = none ↔ ∀ a ∈ l, p a = false := by
  induction l with
  | nil => simp [findIndexJs]
  | cons x xs ih =>
      by_cases hx : p x <;> simp [findIndexJs, hx, ih]

/-- A successful `findIndex` splits the list at the first match, and
removing that index removes exactly the matched element. -/
theorem findIndexJs_eq_some {α : Type} (p : α → Bool) (l : List α) (i : Nat)
    (h : findIndexJs p l = some i) :
    ∃ l1 a l2, l = l1 ++ a :: l2 ∧ l1.length = i ∧ p a = true ∧
      (∀ b ∈ l1, p b = false) ∧ l.eraseIdx i = l1 ++ l2 := by
  induction l generalizing i with
  | nil => simp [findIndexJs] at h
  | cons x xs ih =>
      by_cases hx : p x
      · rw [findIndexJs, if_pos hx] at h
        injection h with hi
        subst hi
        exact ⟨[], x, xs, rfl, rfl, hx, by simp, rfl⟩
      · rw [findIndexJs, if_neg hx] at h
        cases hj : findIndexJs p xs with
        | none => rw [hj] at h; simp at h
        | some j =>
            rw [hj] at h
            simp only [Option.map_some'] at h
            injection h with hi
            obtain ⟨l1, a, l2, hsplit, hlen, hpa, hnl1, herase⟩ := ih j hj
            refine ⟨x :: l1, a, l2, by simp [hsplit], by simp [hlen, hi], hpa, ?_, ?_⟩
            · intro b hb
              rcases List.mem_cons.mp hb with h1 | h2
              · subst h1
                exact Bool.eq_false_iff.mpr hx
              · exact hnl1 b h2
            · subst hi
              show x :: xs.eraseIdx j = (x :: l1) ++ l2
              rw [herase]
              rfl

@[simp] theorem strOf_none : strOf none = "" := rfl

@[simp] theorem strOf_some (s : String) : strOf (some s) = s := rfl

/-! ## Dispatcher lemmas -/

theorem applyEvent_join (s : ServerState) (conn : Nat) (sess : Session)
    (tc nm : String) (t r : Nat)
    (hs : getKey? s.sessions conn = some sess) (hc : sess.connected = true) :
    applyEvent s (.joinRoom conn tc nm t r) = handleJoin s conn sess tc nm t r := by
  simp [applyEvent, hs, hc]

theorem applyEvent_send (s : ServerState) (conn : Nat) (sess : Session)
    (text : String) (t r : Nat)
    (hs : getKey? s.sessions conn = some sess) (hc : sess.connected = true) :
    applyEvent s (.sendMessage conn text t r) = handleSend s conn sess text t r := by
  simp [applyEvent, hs, hc]

theorem applyEvent_delete (s : ServerState) (conn : Nat) (sess : Session)
    (id : String)
    (hs : getKey? s.sessions conn = some sess) (hc : sess.connected = true) :
    applyEvent s (.deleteMessage conn id) = handleDelete s conn sess id := by
  simp [applyEvent, hs, hc]

theorem applyEvent_disconnect (s : ServerState) (conn : Nat) (sess : Session)
    (t r : Nat)
    (hs : getKey? s.sessions conn = some sess) (hc : sess.connected = true) :
    applyEvent s (.disconnect conn t r) = handleDisconnect s conn sess t r := by
  simp [applyEvent, hs, hc]

/-! ## Claim theorems -/

/-- C4: `join(teamCode, name)` fails with `MissingField`
(`"Missing teamCode or name"`) when `teamCode` or `name` is the empty
string, and otherwise fails with `UnknownTeam` (`"Team code not found"`)
when the normalized (trimmed, uppercased) code is not in the registry;
in every failure case the state is completely unchanged (no memberCount
change, no log append) and the only effect is the error acknowledgment
to the caller — nothing is broadcast. -/
theorem join_failure_is_harmless (s : ServerState) (conn : Nat) (sess : Session)
    (teamCode name : String) (t r : Nat)
    (hs : getKey? s.sessions conn = some sess)
    (hc : sess.connected = true)
    (hfail : teamCode = "" ∨ name = "" ∨
      getKey? s.teams (normalizeCode teamCode) = none) :
    applyEvent s (.joinRoom conn teamCode name t r) =
      (s, [.ack conn false
        (some (if teamCode = "" ∨ name = "" then "Missing teamCode or name"
               else "Team code not found"))]) := by
  rw [applyEvent_join s conn sess teamCode name t r hs hc]
  by_cases hmf : teamCode = "" ∨ name = ""
  · rw [handleJoin, if_pos hmf, if_pos hmf]
  · have hnone : getKey? s.teams (normalizeCode teamCode) = none := by
      rcases hfail with h | h | h
      · exact absurd (Or.inl h) hmf
      · exact absurd (Or.inr h) hmf
      · exact h
    rw [handleJoin, if_neg hmf, if_neg hmf]
    simp [hnone]

/-- Witness for `join_failure_is_harmless` at a concrete state: a
connected, unjoined socket sends `join-room` with an unknown code. -/
theorem join_failure_is_harmless_witness :
    applyEvent (applyTrace (initState [("AB", "t")]) [.connect 0])
        (.joinRoom 0 "zz" "Alice" 3 4) =
      (applyTrace (initState [("AB", "t")]) [.connect 0],
       [.ack 0 false (some "Team code not found")]) := by
  have h := join_failure_is_harmless
    (applyTrace (initState [("AB", "t")]) [.connect 0])
    0 ⟨none, none, true⟩ "zz" "Alice" 3 4 (by decide) (by decide) (by decide)
  rw [h]
  decide

/-- C5 (amended): `send(text)` fails with `NotJoined`
(`"You are not in a room"`) exactly when the session's stored `teamCode`
or `userName` field is absent or empty — which is not the same as "not
joined", since a session that joined with a name trimming to the empty
string has an empty stored `userName`; it fails with `EmptyMessage`
(`"Empty message"`) when the trimmed text is empty; in both failure
cases the state is unchanged and nothing is broadcast; when all guards
pass the message is appended to the room log and broadcast. -/
theorem send_guard_conditions (s : ServerState) (conn : Nat) (sess : Session)
    (text : String) (t r : Nat)
    (hs : getKey? s.sessions conn = some sess)
    (hc : sess.connected = true) :
    (strOf sess.teamCode = "" ∨ strOf sess.userName = "" →
      applyEvent s (.sendMessage conn text t r) =
        (s, [.ack conn false (some "You are not in a room")])) ∧
    (strOf sess.teamCode ≠ "" → strOf sess.userName ≠ "" → jsTrim text = "" →
      applyEvent s (.sendMessage conn text t r) =
        (s, [.ack conn false (some "Empty message")])) ∧
    (strOf sess.teamCode ≠ "" → strOf sess.userName ≠ "" → jsTrim text ≠ "" →
      (applyEvent s (.sendMessage conn text t r)).2 =
        [.message (strOf sess.teamCode)
           ⟨msgId t r, false, some (strOf sess.userName), jsTrim text, t⟩,
         .ack conn true none] ∧
      logOf (applyEvent s (.sendMessage conn text t r)).1 (strOf sess.teamCode) =
        logOf s (strOf sess.teamCode) ++
          [⟨msgId t r, false, some (strOf sess.userName), jsTrim text, t⟩]) := by
  rw [applyEvent_send s conn sess text t r hs hc]
  refine ⟨?_, ?_, ?_⟩
  · intro hguard
    rw [handleSend, if_pos hguard]
  · intro h1 h2 h3
    rw [handleSend, if_neg (by tauto), if_pos h3]
  · intro h1 h2 h3
    rw [handleSend, if_neg (by tauto), if_neg h3]
    exact ⟨rfl, by simp [logOf, getKey?_setKey_self]⟩

/-- Witness for `send_guard_conditions` at a concrete state: a joined
session sends a whitespace-only message and gets `"Empty message"`. -/
theorem send_guard_conditions_witness :
    applyEvent (applyTrace (initState [("AB", "t")])
        [.connect 0, .joinRoom 0 "AB" "Alice" 0 0]) (.sendMessage 0 "  " 1 1) =
      (applyTrace (initState [("AB", "t")])
        [.connect 0, .joinRoom 0 "AB" "Alice" 0 0],
       [.ack 0 false (some "Empty message")]) :=
  (send_guard_conditions
    (applyTrace (initState [("AB", "t")]) [.connect 0, .joinRoom 0 "AB" "Alice" 0 0])
    0 ⟨some "AB", some "Alice", true⟩ "  " 1 1 (by decide) (by decide)).2.1
    (by decide) (by decide) (by decide)

/-- C6: for a joined session, `delete(id)` fails with `MissingId`
(`"No id"`) when the id is absent and with `NotFound`
(`"Message not found"`) when no message with that id is in the caller's
room, leaving every room log, the counts, the sessions and the registry
unchanged; when a message with that id exists, exactly the first such
message is removed — the relative order of all remaining messages is
preserved — and a delete-notice carrying only the id is broadcast to the
room, together with a success acknowledgment. -/
theorem delete_message_results (s : ServerState) (conn : Nat) (sess : Session)
    (id c : String)
    (hs : getKey? s.sessions conn = some sess)
    (hc : sess.connected = true)
    (htc : sess.teamCode = some c)
    (hcne : c ≠ "") :
    (id = "" →
      applyEvent s (.deleteMessage conn id) =
        (s, [.ack conn false (some "No id")])) ∧
    (id ≠ "" → (∀ m ∈ logOf s c, m.id ≠ id) →
      (applyEvent s (.deleteMessage conn id)).2 =
        [.ack conn false (some "Message not found")] ∧
      (∀ code, logOf (applyEvent s (.deleteMessage conn id)).1 code = logOf s code) ∧
      (applyEvent s (.deleteMessage conn id)).1.roomUserCounts = s.roomUserCounts ∧
      (applyEvent s (.deleteMessage conn id)).1.sessions = s.sessions ∧
      (applyEvent s (.deleteMessage conn id)).1.teams = s.teams) ∧
    (id ≠ "" → ∀ m ∈ logOf s c, m.id = id →
      ∃ l1 mm l2, logOf s c = l1 ++ mm :: l2 ∧ mm.id = id ∧
        (∀ b ∈ l1, b.id ≠ id) ∧
        logOf (applyEvent s (.deleteMessage conn id)).1 c = l1 ++ l2 ∧
        (applyEvent s (.deleteMessage conn id)).2 =
          [.deleteNotice c id, .ack conn true none]) := by
  rw [applyEvent_delete s conn sess id hs hc]
  have hstr : strOf sess.teamCode = c := by rw [htc]; rfl
  refine ⟨?_, ?_, ?_⟩
  · intro hid
    subst hid
    simp only [handleDelete, hstr]
    rw [if_neg hcne]
    simp
  · intro hid hnone
    have hfind : findIndexJs (fun m => m.id == id) (logOf s c) = none := by
      rw [findIndexJs_eq_none_iff]
      intro a ha
      exact beq_eq_false_iff_ne.mpr (hnone a ha)
    simp only [handleDelete, hstr]
    rw [if_neg hcne, if_neg hid, hfind]
    refine ⟨rfl, ?_, rfl, rfl, rfl⟩
    intro code
    by_cases hcode : code = c
    · subst hcode
      simp [logOf, getKey?_setKey_self]
    · simp [logOf, getKey?_setKey_ne _ _ _ _ (fun h => hcode h.symm)]
  · intro hid m hm hmid
    cases hfind : findIndexJs (fun mm => mm.id == id) (logOf s c) with
    | none =>
        exfalso
        rw [findIndexJs_eq_none_iff] at hfind
        have := hfind m hm
        rw [hmid] at this
        simp at this
    | some i =>
        obtain ⟨l1, a, l2, hsplit, hlen, hpa, hnl1, herase⟩ :=
          findIndexJs_eq_some _ _ i hfind
        refine ⟨l1, a, l2, hsplit, eq_of_beq hpa, ?_, ?_, ?_⟩
        · intro b hb
          exact beq_eq_false_iff_ne.mp (hnl1 b hb)
        · simp only [handleDelete, hstr]
          rw [if_neg hcne, if_neg hid, hfind]
          simp only [logOf, getKey?_setKey_self, Option.getD_some]
          rw [show (getKey? s.roomMessages c).getD [] = logOf s c from rfl, herase]
        · simp only [handleDelete, hstr]
          rw [if_neg hcne, if_neg hid, hfind]

/-- Witness for `delete_message_results`: a joined session deletes its
own join notice by id; the log becomes empty and the notice is gone. -/
theorem delete_message_results_witness :
    ∃ l1 mm l2,
      logOf (applyTrace (initState [("AB", "t")])
        [.connect 0, .joinRoom 0 "AB" "Alice" 5 7]) "AB" = l1 ++ mm :: l2 ∧
      mm.id = "sys-5-7" ∧ (∀ b ∈ l1, b.id ≠ "sys-5-7") ∧
      logOf (applyEvent (applyTrace (initState [("AB", "t")])
        [.connect 0, .joinRoom 0 "AB" "Alice" 5 7])
          (.deleteMessage 0 "sys-5-7")).1 "AB" = l1 ++ l2 ∧
      (applyEvent (applyTrace (initState [("AB", "t")])
        [.connect 0, .joinRoom 0 "AB" "Alice" 5 7])
          (.deleteMessage 0 "sys-5-7")).2 =
        [.deleteNotice "AB" "sys-5-7", .ack 0 true none] :=
  (delete_message_results
    (applyTrace (initState [("AB", "t")]) [.connect 0, .joinRoom 0 "AB" "Alice" 5 7])
    0 ⟨some "AB", some "Alice", true⟩ "sys-5-7" "AB"
    (by decide) (by decide) (by decide) (by decide)).2.2
    (by decide) ⟨"sys-5-7", true, none, "Alice joined the chat", 5⟩
    (by decide) (by decide)

/-- C10: `delete(id)` enforces no authorship restriction: for every
joined session and every message present in that session's room log —
system notice or another member's message alike, no field of the message
other than its id is consulted — the delete succeeds, removes one
message, and broadcasts the delete-notice. -/
theorem delete_ignores_authorship (s : ServerState) (conn : Nat) (sess : Session)
    (id c : String) (m : Message)
    (hs : getKey? s.sessions conn = some sess)
    (hc : sess.connected = true)
    (htc : sess.teamCode = some c)
    (hcne : c ≠ "")
    (hm : m ∈ logOf s c)
    (hmid : m.id = id)
    (hid : id ≠ "") :
    (applyEvent s (.deleteMessage conn id)).2 =
      [.deleteNotice c id, .ack conn true none] ∧
    (logOf (applyEvent s (.deleteMessage conn id)).1 c).length + 1 =
      (logOf s c).length := by
  rw [applyEvent_delete s conn sess id hs hc]
  have hstr : strOf sess.teamCode = c := by rw [htc, strOf_some]
  cases hfind : findIndexJs (fun mm => mm.id == id) (logOf s c) with
  | none =>
      exfalso
      rw [findIndexJs_eq_none_iff] at hfind
      have := hfind m hm
      rw [hmid] at this
      simp at this
  | some i =>
      obtain ⟨l1, a, l2, hsplit, hlen, hpa, hnl1, herase⟩ :=
        findIndexJs_eq_some _ _ i hfind
      constructor
      · simp only [handleDelete, hstr]
        rw [if_neg hcne, if_neg hid, hfind]
      · simp only [handleDelete, hstr]
        rw [if_neg hcne, if_neg hid, hfind]
        simp only [logOf, getKey?_setKey_self, Option.getD_some]
        rw [show (getKey? s.roomMessages c).getD [] = logOf s c from rfl, herase]
        rw [show logOf s c = l1 ++ a :: l2 from hsplit]
        simp
        omega

/-- Witness for `delete_ignores_authorship`: Bob deletes a message
authored by Alice. -/
theorem delete_ignores_authorship_witness :
    (applyEvent (applyTrace (initState [("AB", "t")])
      [.connect 0, .connect 1, .joinRoom 0 "AB" "Alice" 0 0,
       .joinRoom 1 "AB" "Bob" 1 1, .sendMessage 0 "hi" 2 2])
        (.deleteMessage 1 "m-2-2")).2 =
      [.deleteNotice "AB" "m-2-2", .ack 1 true none] ∧
    (logOf (applyEvent (applyTrace (initState [("AB", "t")])
      [.connect 0, .connect 1, .joinRoom 0 "AB" "Alice" 0 0,
       .joinRoom 1 "AB" "Bob" 1 1, .sendMessage 0 "hi" 2 2])
        (.deleteMessage 1 "m-2-2")).1 "AB").length + 1 =
      (logOf (applyTrace (initState [("AB", "t")])
        [.connect 0, .connect 1, .joinRoom 0 "AB" "Alice" 0 0,
         .joinRoom 1 "AB" "Bob" 1 1, .sendMessage 0 "hi" 2 2]) "AB").length :=
  delete_ignores_authorship
    (applyTrace (initState [("AB", "t")])
      [.connect 0, .connect 1, .joinRoom 0 "AB" "Alice" 0 0,
       .joinRoom 1 "AB" "Bob" 1 1, .sendMessage 0 "hi" 2 2])
    1 ⟨some "AB", some "Bob", true⟩ "m-2-2" "AB"
    ⟨"m-2-2", false, some "Alice", "hi", 2⟩
    (by decide) (by decide) (by decide) (by decide) (by decide) (by decide)
    (by decide)

theorem teamCodeOf_congr (s s' : ServerState) (h : s'.sessions = s.sessions)
    (conn : Nat) : teamCodeOf s' conn = teamCodeOf s conn := by
  unfold teamCodeOf
  rw [h]

theorem handleSend_keeps (s : ServerState) (conn : Nat) (sess : Session)
    (text : String) (t r : Nat) :
    (handleSend s conn sess text t r).1.sessions = s.sessions ∧
    (handleSend s conn sess text t r).1.roomUserCounts = s.roomUserCounts ∧
    (handleSend s conn sess text t r).1.teams = s.teams := by
  rw [handleSend]
  by_cases h1 : strOf sess.teamCode = "" ∨ strOf sess.userName = ""
  · rw [if_pos h1]
    exact ⟨rfl, rfl, rfl⟩
  · rw [if_neg h1]
    by_cases h2 : jsTrim text = ""
    · rw [if_pos h2]
      exact ⟨rfl, rfl, rfl⟩
    · rw [if_neg h2]
      exact ⟨rfl, rfl, rfl⟩

theorem handleDelete_keeps (s : ServerState) (conn : Nat) (sess : Session)
    (id : String) :
    (handleDelete s conn sess id).1.sessions = s.sessions ∧
    (handleDelete s conn sess id).1.roomUserCounts = s.roomUserCounts ∧
    (handleDelete s conn sess id).1.teams = s.teams := by
  cases hf : findIndexJs (fun m => m.id == id) (logOf s (strOf sess.teamCode)) with
  | none =>
      simp only [handleDelete, hf]
      split
      · exact ⟨rfl, rfl, rfl⟩
      · split
        · exact ⟨rfl, rfl, rfl⟩
        · exact ⟨rfl, rfl, rfl⟩
  | some i =>
      simp only [handleDelete, hf]
      split
      · exact ⟨rfl, rfl, rfl⟩
      · split
        · exact ⟨rfl, rfl, rfl⟩
        · exact ⟨rfl, rfl, rfl⟩

theorem handleJoin_success_sessions (s : ServerState) (conn : Nat)
    (sess : Session) (tc nm : String) (t r : Nat)
    (hmf : ¬(tc = "" ∨ nm = ""))
    (hteam : ¬(getKey? s.teams (normalizeCode tc)).isNone = true) :
    (handleJoin s conn sess tc nm t r).1.sessions
      = setKey s.sessions conn
          { sess with
              teamCode := some (normalizeCode tc),
              userName := some (normalizeName nm) } := by
  rw [handleJoin, if_neg hmf, if_neg hteam]

theorem handleDisconnect_sessions (s : ServerState) (conn : Nat) (sess : Session)
    (t r : Nat) :
    (handleDisconnect s conn sess t r).1.sessions
      = setKey s.sessions conn { sess with connected := false } ∧
    (handleDisconnect s conn sess t r).1.teams = s.teams := by
  rw [handleDisconnect]
  by_cases h1 : strOf sess.teamCode = ""
  · rw [if_pos h1]
    exact ⟨rfl, rfl⟩
  · rw [if_neg h1]
    by_cases h2 : prevCount (getKey? s.roomUserCounts (strOf sess.teamCode)) - 1 > 0
    · rw [if_pos h2]
      exact ⟨rfl, rfl⟩
    · rw [if_neg h2]
      exact ⟨rfl, rfl⟩

/-- A successful join, fully evaluated: the session is re-pointed at the
room, the count incremented, the history emitted before the join notice
is appended and broadcast. -/
theorem handleJoin_success (s : ServerState) (conn : Nat) (sess : Session)
    (tc nm : String) (t r : Nat)
    (hmf : ¬(tc = "" ∨ nm = ""))
    (hteam : (getKey? s.teams (normalizeCode tc)).isNone = false) :
    handleJoin s conn sess tc nm t r =
      ({ teams := s.teams,
         roomMessages := setKey s.roomMessages (normalizeCode tc)
           (logOf s (normalizeCode tc) ++
             [⟨sysId t r, true, none, normalizeName nm ++ " joined the chat", t⟩]),
         roomUserCounts := setKey s.roomUserCounts (normalizeCode tc)
           ((getKey? s.roomUserCounts (normalizeCode tc)).getD 0 + 1),
         sessions := setKey s.sessions conn
           { sess with
               teamCode := some (normalizeCode tc),
               userName := some (normalizeName nm) } },
       [.roomHistory conn (logOf s (normalizeCode tc)),
        .message (normalizeCode tc)
          ⟨sysId t r, true, none, normalizeName nm ++ " joined the chat", t⟩,
        .ack conn true none]) := by
  rw [handleJoin, if_neg hmf, if_neg (by rw [hteam]; simp)]

/-- C2 (amended): a session's `teamCode` is only ever written by a
successful join — `connect`, `send-message`, `delete-message` and
`disconnect` never change any session's stored `teamCode` — but the
join handler does not reject a join from an already-joined session, so
a second successful join re-attaches the connection and overwrites its
`teamCode` with the newly normalized code. -/
theorem team_code_changed_only_by_join (s : ServerState) (e : Event) (conn : Nat) :
    teamCodeOf (applyEvent s e).1 conn = teamCodeOf s conn ∨
    (∃ tc nm t r, e = .joinRoom conn tc nm t r ∧
      teamCodeOf (applyEvent s e).1 conn = some (normalizeCode tc)) := by
  cases e with
  | connect c0 =>
      left
      cases hg : getKey? s.sessions c0 with
      | some sess =>
          have hna : applyEvent s (.connect c0) = (s, []) := by
            simp [applyEvent, hg]
          rw [hna]
      | none =>
          have hna : applyEvent s (.connect c0) =
              ({ s with sessions := s.sessions ++ [(c0, ⟨none, none, true⟩)] }, []) := by
            simp [applyEvent, hg]
          rw [hna]
          unfold teamCodeOf
          simp only [getKey?_append_single]
          cases hcg : getKey? s.sessions conn with
          | some sess => rfl
          | none => by_cases hcc : c0 = conn <;> simp [hcc]
  | joinRoom c0 tc nm t r =>
      cases hg : getKey? s.sessions c0 with
      | none =>
          have hna : applyEvent s (.joinRoom c0 tc nm t r) = (s, []) := by
            simp [applyEvent, hg]
          rw [hna]
          exact Or.inl rfl
      | some sess =>
          cases hc : sess.connected with
          | false =>
              have hna : applyEvent s (.joinRoom c0 tc nm t r) = (s, []) := by
                simp [applyEvent, hg, hc]
              rw [hna]
              exact Or.inl rfl
          | true =>
              rw [applyEvent_join s c0 sess tc nm t r hg hc]
              by_cases hmf : tc = "" ∨ nm = ""
              · rw [handleJoin, if_pos hmf]
                exact Or.inl rfl
              · by_cases hteam : (getKey? s.teams (normalizeCode tc)).isNone = true
                · rw [handleJoin, if_neg hmf, if_pos hteam]
                  exact Or.inl rfl
                · by_cases hconn : conn = c0
                  · subst hconn
                    right
                    refine ⟨tc, nm, t, r, rfl, ?_⟩
                    unfold teamCodeOf
                    rw [handleJoin_success_sessions s conn sess tc nm t r hmf hteam]
                    rw [getKey?_setKey_self]
                  · left
                    unfold teamCodeOf
                    rw [handleJoin_success_sessions s c0 sess tc nm t r hmf hteam]
                    rw [getKey?_setKey_ne _ _ _ _ (fun h => hconn h.symm)]
  | sendMessage c0 text t r =>
      left
      cases hg : getKey? s.sessions c0 with
      | none =>
          have hna : applyEvent s (.sendMessage c0 text t r) = (s, []) := by
            simp [applyEvent, hg]
          rw [hna]
      | some sess =>
          cases hc : sess.connected with
          | false =>
              have hna : applyEvent s (.sendMessage c0 text t r) = (s, []) := by
                simp [applyEvent, hg, hc]
              rw [hna]
          | true =>
              rw [applyEvent_send s c0 sess text t r hg hc]
              exact teamCodeOf_congr s _ (handleSend_keeps s c0 sess text t r).1 conn
  | deleteMessage c0 id =>
      left
      cases hg : getKey? s.sessions c0 with
      | none =>
          have hna : applyEvent s (.deleteMessage c0 id) = (s, []) := by
            simp [applyEvent, hg]
          rw [hna]
      | some sess =>
          cases hc : sess.connected with
          | false =>
              have hna : applyEvent s (.deleteMessage c0 id) = (s, []) := by
                simp [applyEvent, hg, hc]
              rw [hna]
          | true =>
              rw [applyEvent_delete s c0 sess id hg hc]
              exact teamCodeOf_congr s _ (handleDelete_keeps s c0 sess id).1 conn
  | disconnect c0 t r =>
      left
      cases hg : getKey? s.sessions c0 with
      | none =>
          have hna : applyEvent s (.disconnect c0 t r) = (s, []) := by
            simp [applyEvent, hg]
          rw [hna]
      | some sess =>
          cases hc : sess.connected with
          | false =>
              have hna : applyEvent s (.disconnect c0 t r) = (s, []) := by
                simp [applyEvent, hg, hc]
              rw [hna]
          | true =>
              rw [applyEvent_disconnect s c0 sess t r hg hc]
              unfold teamCodeOf
              rw [(handleDisconnect_sessions s c0 sess t r).1]
              by_cases hconn : conn = c0
              · subst hconn
                rw [getKey?_setKey_self, hg]
              · rw [getKey?_setKey_ne _ _ _ _ (fun h => hconn h.symm)]

/-- C2 counterexample: the claim "once set, no subsequent event changes
`teamCode` for the connection's lifetime" is false — a second join on
the same live connection overwrites it (`"AA"`, then `"BB"`). -/
theorem team_code_rejoin_counterexample :
    teamCodeOf (applyTrace (initState [("AA", "t"), ("BB", "t")])
      [.connect 0, .joinRoom 0 "AA" "x" 0 0]) 0 = some "AA" ∧
    teamCodeOf (applyTrace (initState [("AA", "t"), ("BB", "t")])
      [.connect 0, .joinRoom 0 "AA" "x" 0 0, .joinRoom 0 "BB" "x" 1 1]) 0 =
      some "BB" := by
  decide

/-- C3: when the last joined member of a room disconnects (the stored
member count decrements to zero, with the decrement floored at zero),
the room's message-log entry is discarded entirely while the team
registry is untouched and nothing is broadcast; a subsequent join to
the same code then succeeds: it receives an empty `room-history`
followed by the broadcast of its own join notice, and the log afterwards
holds exactly that notice. -/
theorem last_disconnect_clears_log (s : ServerState) (conn : Nat) (sess : Session)
    (c : String) (t r : Nat)
    (hs : getKey? s.sessions conn = some sess)
    (hc : sess.connected = true)
    (htc : sess.teamCode = some c)
    (hcne : c ≠ "")
    (hnd : (keysOf s.roomMessages).Nodup)
    (hlast : prevCount (getKey? s.roomUserCounts c) = 1) :
    getKey? (applyEvent s (.disconnect conn t r)).1.roomMessages c = none ∧
    (applyEvent s (.disconnect conn t r)).1.teams = s.teams ∧
    (applyEvent s (.disconnect conn t r)).2 = [] ∧
    (∀ conn2 sess2 tc2 nm2 t2 r2,
      getKey? (applyEvent s (.disconnect conn t r)).1.sessions conn2 = some sess2 →
      sess2.connected = true →
      ¬(tc2 = "" ∨ nm2 = "") →
      normalizeCode tc2 = c →
      (getKey? s.teams c).isSome = true →
      (applyEvent (applyEvent s (.disconnect conn t r)).1
          (.joinRoom conn2 tc2 nm2 t2 r2)).2 =
        [.roomHistory conn2 [],
         .message c ⟨sysId t2 r2, true, none,
           normalizeName nm2 ++ " joined the chat", t2⟩,
         .ack conn2 true none] ∧
      logOf (applyEvent (applyEvent s (.disconnect conn t r)).1
          (.joinRoom conn2 tc2 nm2 t2 r2)).1 c =
        [⟨sysId t2 r2, true, none, normalizeName nm2 ++ " joined the chat", t2⟩]) := by
  have hstr : strOf sess.teamCode = c := by rw [htc]; rfl
  have hdisc : applyEvent s (.disconnect conn t r) =
      ({ teams := s.teams,
         roomMessages := delKey s.roomMessages c,
         roomUserCounts := setKey s.roomUserCounts c 0,
         sessions := setKey s.sessions conn { sess with connected := false } }, []) := by
    rw [applyEvent_disconnect s conn sess t r hs hc]
    simp only [handleDisconnect, hstr]
    rw [if_neg hcne, hlast]
    norm_num
  have hgone : getKey? (delKey s.roomMessages c) c = none :=
    getKey?_delKey_self s.roomMessages c hnd
  have hT : (applyEvent s (.disconnect conn t r)).1.teams = s.teams := by
    rw [hdisc]
  have hM : (applyEvent s (.disconnect conn t r)).1.roomMessages =
      delKey s.roomMessages c := by
    rw [hdisc]
  have hE : (applyEvent s (.disconnect conn t r)).2 = [] := by
    rw [hdisc]
  have hgM : getKey? (applyEvent s (.disconnect conn t r)).1.roomMessages c = none := by
    rw [hM]
    exact hgone
  refine ⟨hgM, hT, hE, ?_⟩
  intro conn2 sess2 tc2 nm2 t2 r2 hs2 hc2 hmf hnorm hteam
  have hteam2 : (getKey? (applyEvent s (.disconnect conn t r)).1.teams
      (normalizeCode tc2)).isNone = false := by
    rw [hT, hnorm]
    rcases Option.isSome_iff_exists.mp hteam with ⟨w, hw⟩
    rw [hw]
    rfl
  rw [applyEvent_join _ conn2 sess2 tc2 nm2 t2 r2 hs2 hc2,
    handleJoin_success _ conn2 sess2 tc2 nm2 t2 r2 hmf hteam2]
  constructor
  · simp [logOf, hnorm, hgM]
  · simp [logOf, hnorm, hgM, getKey?_setKey_self]

/-- Witness for `last_disconnect_clears_log`: Alice joins, sends a
message, disconnects as last member; Bob then joins the same code and
gets an empty history plus his own join notice. -/
theorem last_disconnect_clears_log_witness :
    getKey? (applyEvent (applyTrace (initState [("AB", "t")])
      [.connect 0, .connect 1, .joinRoom 0 "AB" "Alice" 0 0,
       .sendMessage 0 "hi" 1 1]) (.disconnect 0 2 2)).1.roomMessages "AB" = none ∧
    (applyEvent (applyTrace (initState [("AB", "t")])
      [.connect 0, .connect 1, .joinRoom 0 "AB" "Alice" 0 0,
       .sendMessage 0 "hi" 1 1]) (.disconnect 0 2 2)).1.teams =
      (applyTrace (initState [("AB", "t")])
        [.connect 0, .connect 1, .joinRoom 0 "AB" "Alice" 0 0,
         .sendMessage 0 "hi" 1 1]).teams ∧
    (applyEvent (applyTrace (initState [("AB", "t")])
      [.connect 0, .connect 1, .joinRoom 0 "AB" "Alice" 0 0,
       .sendMessage 0 "hi" 1 1]) (.disconnect 0 2 2)).2 = [] ∧
    ((applyEvent (applyEvent (applyTrace (initState [("AB", "t")])
        [.connect 0, .connect 1, .joinRoom 0 "AB" "Alice" 0 0,
         .sendMessage 0 "hi" 1 1]) (.disconnect 0 2 2)).1
        (.joinRoom 1 "AB" "Bob" 3 3)).2 =
      [.roomHistory 1 [],
       .message "AB" ⟨sysId 3 3, true, none,
         normalizeName "Bob" ++ " joined the chat", 3⟩,
       .ack 1 true none] ∧
     logOf (applyEvent (applyEvent (applyTrace (initState [("AB", "t")])
        [.connect 0, .connect 1, .joinRoom 0 "AB" "Alice" 0 0,
         .sendMessage 0 "hi" 1 1]) (.disconnect 0 2 2)).1
        (.joinRoom 1 "AB" "Bob" 3 3)).1 "AB" =
      [⟨sysId 3 3, true, none, normalizeName "Bob" ++ " joined the chat", 3⟩]) := by
  have h := last_disconnect_clears_log
    (applyTrace (initState [("AB", "t")])
      [.connect 0, .connect 1, .joinRoom 0 "AB" "Alice" 0 0, .sendMessage 0 "hi" 1 1])
    0 ⟨some "AB", some "Alice", true⟩ "AB" 2 2
    (by decide) (by decide) (by decide) (by decide) (by decide) (by decide)
  exact ⟨h.1, h.2.1, h.2.2.1,
    h.2.2.2 1 ⟨none, none, true⟩ "AB" "Bob" 3 3
      (by decide) (by decide) (by decide) (by decide) (by decide)⟩

theorem makeTeamCode_length (g : Fin 6 → Fin 32) : (makeTeamCode g).length = 6 := by
  simp [makeTeamCode, String.length]

theorem codeChars_length : codeChars.length = 32 := rfl

theorem makeTeamCode_chars (g : Fin 6 → Fin 32) :
    ∀ ch ∈ (makeTeamCode g).data, ch ∈ codeChars := by
  intro ch hch
  simp only [makeTeamCode] at hch
  obtain ⟨i, _, hi⟩ := List.mem_map.mp hch
  have hlt : ((g i) : Nat) < codeChars.length := by
    rw [codeChars_length]
    exact (g i).isLt
  rw [List.getD_eq_get?, List.get?_eq_get hlt] at hi
  rw [← hi]
  exact List.get_mem _ _ _

/-- C7: a team code generated by `create()` with no custom code has
length exactly 6, draws every character from the restricted alphabet,
is absent from the registry immediately before the creation and present
(mapping to its creation timestamp) immediately after.  The hypothesis
supplies the stream of random draws and asks that it eventually produce
a code not already registered — otherwise the source's retry loop never
terminates. -/
theorem create_generated_code_properties (teams : List (String × String))
    (cands : List (Fin 6 → Fin 32)) (createdAt : String)
    (hfresh : ∃ g ∈ cands, getKey? teams (makeTeamCode g) = none) :
    ∃ teams2 code, createTeam teams none cands createdAt = .ok teams2 code ∧
      code.length = 6 ∧ (∀ ch ∈ code.data, ch ∈ codeChars) ∧
      getKey? teams code = none ∧ getKey? teams2 code = some createdAt := by
  have hsome : (cands.find?
      (fun gg => (getKey? teams (makeTeamCode gg)).isNone)).isSome = true := by
    rw [List.find?_isSome]
    obtain ⟨g0, hg0mem, hg0⟩ := hfresh
    exact ⟨g0, hg0mem, by rw [hg0]; rfl⟩
  obtain ⟨g, hg⟩ := Option.isSome_iff_exists.mp hsome
  have hgNone : getKey? teams (makeTeamCode g) = none := by
    have := List.find?_some hg
    simpa using this
  refine ⟨setKey teams (makeTeamCode g) createdAt, makeTeamCode g, ?_,
    makeTeamCode_length g, makeTeamCode_chars g, hgNone,
    getKey?_setKey_self _ _ _⟩
  simp [createTeam, customOf, hg]

/-- Witness for `create_generated_code_properties`: one random draw of
all-zero indices against a one-entry registry. -/
theorem create_generated_code_properties_witness :
    ∃ teams2 code,
      createTeam [("AB", "t")] none [fun _ => (0 : Fin 32)] "ts" = .ok teams2 code ∧
      code.length = 6 ∧ (∀ ch ∈ code.data, ch ∈ codeChars) ∧
      getKey? [("AB", "t")] code = none ∧ getKey? teams2 code = some "ts" :=
  create_generated_code_properties [("AB", "t")] [fun _ => (0 : Fin 32)] "ts"
    ⟨fun _ => (0 : Fin 32), List.mem_singleton.mpr rfl, by decide⟩

/-- C8 counterexample: the claim that every code accepted into the
registry has 6 characters from the restricted alphabet is false —
`create()` accepts any nonempty custom code after trim/uppercase, here
the 2-character `"AB"`. -/
theorem registry_code_shape_counterexample :
    createTeam [] (some "ab") [] "ts" = .ok [("AB", "ts")] "AB" ∧
    ("AB" : String).length ≠ 6 := by
  constructor
  · decide
  · decide

/-- C8 (amended): codes in the registry are unique — `create()` rejects
an already-present custom code with `CodeConflict` and retries colliding
generated codes, and insertion keeps the key set duplicate-free — and a
*generated* code always has 6 characters from the restricted alphabet;
but a *custom* code is only trimmed, uppercased and checked nonempty, so
it need not have 6 characters nor stay within the alphabet. -/
theorem create_registry_shape (teams : List (String × String))
    (customCode : Option String) (cands : List (Fin 6 → Fin 32))
    (createdAt : String) (teams2 : List (String × String)) (code : String)
    (hnd : (keysOf teams).Nodup)
    (hok : createTeam teams customCode cands createdAt = .ok teams2 code) :
    (keysOf teams2).Nodup ∧ code ≠ "" ∧
    getKey? teams code = none ∧ getKey? teams2 code = some createdAt ∧
    (customOf customCode = "" →
      code.length = 6 ∧ ∀ ch ∈ code.data, ch ∈ codeChars) := by
  simp only [createTeam] at hok
  by_cases hcu : customOf customCode = ""
  · rw [hcu] at hok
    rw [if_neg (by simp)] at hok
    cases hfind : cands.find?
        (fun gg => (getKey? teams (makeTeamCode gg)).isNone) with
    | none =>
        rw [hfind] at hok
        exact absurd hok (by simp)
    | some g =>
        rw [hfind] at hok
        have hgNone : getKey? teams (makeTeamCode g) = none := by
          have := List.find?_some hfind
          simpa using this
        have hcode : code = makeTeamCode g := by
          cases hok
          rfl
        have hteams2 : teams2 = setKey teams (makeTeamCode g) createdAt := by
          cases hok
          rfl
        subst hcode
        subst hteams2
        refine ⟨nodup_keys_setKey _ _ _ hnd, ?_, hgNone,
          getKey?_setKey_self _ _ _, fun _ => ⟨makeTeamCode_length g,
            makeTeamCode_chars g⟩⟩
        intro h
        have := makeTeamCode_length g
        rw [h] at this
        simp at this
  · rw [if_pos hcu] at hok
    cases hs : (getKey? teams (customOf customCode)).isSome with
    | true =>
        rw [hs] at hok
        exact absurd hok (by simp)
    | false =>
        rw [hs] at hok
        simp only [if_false, Bool.false_eq_true] at hok
        have hgNone : getKey? teams (customOf customCode) = none := by
          cases hg : getKey? teams (customOf customCode) with
          | none => rfl
          | some w => rw [hg] at hs; simp at hs
        have hcode : code = customOf customCode := by
          cases hok
          rfl
        have hteams2 : teams2 = setKey teams (customOf customCode) createdAt := by
          cases hok
          rfl
        subst hcode
        subst hteams2
        exact ⟨nodup_keys_setKey _ _ _ hnd, hcu, hgNone,
          getKey?_setKey_self _ _ _, fun h => absurd h hcu⟩

/-- Witness for `create_registry_shape`: a generated code on a one-entry
registry with unique keys. -/
theorem create_registry_shape_witness :
    (keysOf (setKey [("AB", "t")] (makeTeamCode (fun _ => (0 : Fin 32))) "ts")).Nodup ∧
    makeTeamCode (fun _ => (0 : Fin 32)) ≠ "" ∧
    getKey? [("AB", "t")] (makeTeamCode (fun _ => (0 : Fin 32))) = none ∧
    getKey? (setKey [("AB", "t")] (makeTeamCode (fun _ => (0 : Fin 32))) "ts")
      (makeTeamCode (fun _ => (0 : Fin 32))) = some "ts" ∧
    (customOf none = "" →
      (makeTeamCode (fun _ => (0 : Fin 32))).length = 6 ∧
      ∀ ch ∈ (makeTeamCode (fun _ => (0 : Fin 32))).data, ch ∈ codeChars) :=
  create_registry_shape [("AB", "t")] none [fun _ => (0 : Fin 32)] "ts"
    (setKey [("AB", "t")] (makeTeamCode (fun _ => (0 : Fin 32))) "ts")
    (makeTeamCode (fun _ => (0 : Fin 32))) (by decide) (by decide)

theorem countP_attached_setKey (m : List (Nat × Session)) (k : Nat)
    (v v' : Session) (code : String)
    (hnd : (keysOf m).Nodup) (hget : getKey? m k = some v) :
    (setKey m k v').countP (attachedP code) + (attachedP code (k, v)).toNat
      = m.countP (attachedP code) + (attachedP code (k, v')).toNat := by
  induction m with
  | nil => simp [getKey?] at hget
  | cons p rest ih =>
      obtain ⟨k₀, v₀⟩ := p
      simp only [keysOf, List.map_cons, List.nodup_cons] at hnd
      by_cases h : k₀ = k
      · subst h
        rw [getKey?_cons, if_pos rfl] at hget
        injection hget with hv
        subst hv
        rw [setKey, if_pos rfl]
        simp only [List.countP_cons]
        cases hb : attachedP code (k₀, v₀) <;>
          cases hb' : attachedP code (k₀, v') <;> simp [hb, hb']
      · rw [getKey?_cons, if_neg h] at hget
        rw [setKey, if_neg h]
        simp only [List.countP_cons]
        have := ih (by simpa [keysOf] using hnd.2) hget
        omega

theorem countP_attached_append (m : List (Nat × Session)) (k : Nat)
    (v : Session) (code : String) :
    (m ++ [(k, v)]).countP (attachedP code)
      = m.countP (attachedP code) + (attachedP code (k, v)).toNat := by
  rw [List.countP_append]
  simp only [List.countP_cons, List.countP_nil]
  cases attachedP code (k, v) <;> simp

theorem countP_attached_pos (m : List (Nat × Session)) (k : Nat)
    (v : Session) (code : String)
    (hget : getKey? m k = some v) (hq : attachedP code (k, v) = true) :
    1 ≤ m.countP (attachedP code) := by
  induction m with
  | nil => simp [getKey?] at hget
  | cons p rest ih =>
      obtain ⟨k₀, v₀⟩ := p
      by_cases h : k₀ = k
      · subst h
        rw [getKey?_cons, if_pos rfl] at hget
        injection hget with hv
        subst hv
        simp [List.countP_cons, hq]
      · rw [getKey?_cons, if_neg h] at hget
        simp only [List.countP_cons]
        have := ih hget
        omega

theorem handleJoin_success_counts (s : ServerState) (conn : Nat)
    (sess : Session) (tc nm : String) (t r : Nat)
    (hmf : ¬(tc = "" ∨ nm = ""))
    (hteam : ¬(getKey? s.teams (normalizeCode tc)).isNone = true) :
    (handleJoin s conn sess tc nm t r).1.roomUserCounts
      = setKey s.roomUserCounts (normalizeCode tc)
          ((getKey? s.roomUserCounts (normalizeCode tc)).getD 0 + 1) := by
  rw [handleJoin, if_neg hmf, if_neg hteam]

theorem handleJoin_success_teams (s : ServerState) (conn : Nat)
    (sess : Session) (tc nm : String) (t r : Nat)
    (hmf : ¬(tc = "" ∨ nm = ""))
    (hteam : ¬(getKey? s.teams (normalizeCode tc)).isNone = true) :
    (handleJoin s conn sess tc nm t r).1.teams = s.teams := by
  rw [handleJoin, if_neg hmf, if_neg hteam]

theorem handleDisconnect_joined_counts (s : ServerState) (conn : Nat)
    (sess : Session) (c : String) (t r : Nat)
    (htc : sess.teamCode = some c) (hcne : c ≠ "") :
    (handleDisconnect s conn sess t r).1.roomUserCounts
      = setKey s.roomUserCounts c (prevCount (getKey? s.roomUserCounts c) - 1) := by
  have hstr : strOf sess.teamCode = c := by rw [htc]; rfl
  simp only [handleDisconnect, hstr]
  rw [if_neg hcne]
  by_cases h2 : prevCount (getKey? s.roomUserCounts c) - 1 > 0
  · rw [if_pos h2]
  · rw [if_neg h2]

theorem handleDisconnect_unjoined_counts (s : ServerState) (conn : Nat)
    (sess : Session) (t r : Nat)
    (htc : strOf sess.teamCode = "") :
    (handleDisconnect s conn sess t r).1.roomUserCounts = s.roomUserCounts := by
  simp [handleDisconnect, htc]

theorem nodup_keys_append_fresh {κ α : Type} [DecidableEq κ]
    (m : List (κ × α)) (k : κ) (v : α)
    (hget : getKey? m k = none) (hnd : (keysOf m).Nodup) :
    (keysOf (m ++ [(k, v)])).Nodup := by
  have hk : k ∉ keysOf m := (getKey?_eq_none_iff m k).mp hget
  rw [keysOf, List.map_append]
  refine List.Nodup.append hnd (List.nodup_singleton k) ?_
  intro a ha hb
  rw [show List.map Prod.fst [(k, v)] = [k] from rfl] at hb
  rw [List.mem_singleton] at hb
  subst hb
  exact hk ha

theorem prevCount_some_pos (n : Nat) (h : 0 < n) : prevCount (some n) = n := by
  cases n with
  | zero => omega
  | succ m => rfl

theorem memberInv_of_eq (s s' : ServerState)
    (hsess : s'.sessions = s.sessions)
    (hcounts : s'.roomUserCounts = s.roomUserCounts)
    (hteams : s'.teams = s.teams)
    (hInv : MemberInv s) : MemberInv s' := by
  obtain ⟨h1, h2, h3, h4⟩ := hInv
  refine ⟨?_, ?_, ?_, ?_⟩
  · rw [hsess]; exact h1
  · rw [hteams]; exact h2
  · intro conn sess hg
    rw [hsess] at hg
    exact h3 conn sess hg
  · intro code
    unfold memberCountOf countAttached
    rw [hsess, hcounts]
    exact h4 code

theorem memberInv_step (s : ServerState) (e : Event)
    (hInv : MemberInv s) (hok : eventOk s e = true) :
    MemberInv (applyEvent s e).1 := by
  obtain ⟨hnd, hteams, hnoempty, hcount⟩ := hInv
  cases e with
  | connect c0 =>
      cases hg : getKey? s.sessions c0 with
      | some sess =>
          have hna : applyEvent s (.connect c0) = (s, []) := by
            simp [applyEvent, hg]
          rw [hna]
          exact ⟨hnd, hteams, hnoempty, hcount⟩
      | none =>
          have hS : (applyEvent s (.connect c0)).1.sessions
              = s.sessions ++ [(c0, ⟨none, none, true⟩)] := by
            simp [applyEvent, hg]
          have hC : (applyEvent s (.connect c0)).1.roomUserCounts
              = s.roomUserCounts := by
            simp [applyEvent, hg]
          have hT : (applyEvent s (.connect c0)).1.teams = s.teams := by
            simp [applyEvent, hg]
          refine ⟨?_, ?_, ?_, ?_⟩
          · rw [hS]
            exact nodup_keys_append_fresh _ _ _ hg hnd
          · rw [hT]
            exact hteams
          · intro conn sess2 hg2
            rw [hS, getKey?_append_single] at hg2
            cases hold : getKey? s.sessions conn with
            | some w =>
                rw [hold] at hg2
                injection hg2 with hw
                subst hw
                exact hnoempty conn w hold
            | none =>
                rw [hold] at hg2
                by_cases hcc : c0 = conn
                · rw [if_pos hcc] at hg2
                  injection hg2 with hw
                  subst hw
                  simp
                · rw [if_neg hcc] at hg2
                  exact absurd hg2 (by simp)
          · intro code
            unfold memberCountOf countAttached
            rw [hS, hC, countP_attached_append]
            rw [show attachedP code (c0, ⟨none, none, true⟩) = false from rfl]
            exact hcount code
  | joinRoom c0 tc nm t r =>
      cases hg : getKey? s.sessions c0 with
      | none =>
          have hna : applyEvent s (.joinRoom c0 tc nm t r) = (s, []) := by
            simp [applyEvent, hg]
          rw [hna]
          exact ⟨hnd, hteams, hnoempty, hcount⟩
      | some sess =>
          cases hc : sess.connected with
          | false =>
              have hna : applyEvent s (.joinRoom c0 tc nm t r) = (s, []) := by
                simp [applyEvent, hg, hc]
              rw [hna]
              exact ⟨hnd, hteams, hnoempty, hcount⟩
          | true =>
              have hunj : sess.teamCode = none := by
                simp only [eventOk] at hok
                rw [hg] at hok
                exact Option.isNone_iff_eq_none.mp hok
              rw [applyEvent_join s c0 sess tc nm t r hg hc]
              by_cases hmf : tc = "" ∨ nm = ""
              · rw [handleJoin, if_pos hmf]
                exact ⟨hnd, hteams, hnoempty, hcount⟩
              · by_cases hteam : (getKey? s.teams (normalizeCode tc)).isNone = true
                · rw [handleJoin, if_neg hmf, if_pos hteam]
                  exact ⟨hnd, hteams, hnoempty, hcount⟩
                · have htcn : normalizeCode tc ≠ "" := by
                    intro h
                    rw [h, hteams] at hteam
                    exact hteam rfl
                  have hS := handleJoin_success_sessions s c0 sess tc nm t r hmf hteam
                  have hC := handleJoin_success_counts s c0 sess tc nm t r hmf hteam
                  have hT := handleJoin_success_teams s c0 sess tc nm t r hmf hteam
                  refine ⟨?_, ?_, ?_, ?_⟩
                  · rw [hS]
                    exact nodup_keys_setKey _ _ _ hnd
                  · rw [hT]
                    exact hteams
                  · intro conn sess2 hg2
                    rw [hS] at hg2
                    by_cases hcc : conn = c0
                    · subst hcc
                      rw [getKey?_setKey_self] at hg2
                      injection hg2 with hw
                      subst hw
                      intro h
                      injection h with h2
                      exact htcn h2
                    · rw [getKey?_setKey_ne _ _ _ _ (fun h => hcc h.symm)] at hg2
                      exact hnoempty conn sess2 hg2
                  · intro code
                    unfold memberCountOf countAttached
                    rw [hS, hC]
                    have hstep := countP_attached_setKey s.sessions c0 sess
                      { sess with
                          teamCode := some (normalizeCode tc),
                          userName := some (normalizeName nm) } code hnd hg
                    have hqold : attachedP code (c0, sess) = false := by
                      simp [attachedP, hunj]
                    rw [hqold] at hstep
                    have hc0 := hcount code
                    unfold memberCountOf countAttached at hc0
                    by_cases hcode : code = normalizeCode tc
                    · rw [hcode, getKey?_setKey_self]
                      have hqnew : attachedP code (c0,
                          { sess with
                              teamCode := some (normalizeCode tc),
                              userName := some (normalizeName nm) }) = true := by
                        simp [attachedP, hc, hcode]
                      rw [hqnew] at hstep
                      rw [← hcode] at hstep ⊢
                      simp only [Option.getD_some, Bool.toNat_false, Bool.toNat_true] at hstep ⊢
                      omega
                    · rw [getKey?_setKey_ne _ _ _ _ (fun h => hcode h.symm)]
                      have hqnew : attachedP code (c0,
                          { sess with
                              teamCode := some (normalizeCode tc),
                              userName := some (normalizeName nm) }) = false := by
                        simp only [attachedP, Bool.and_eq_false_iff]
                        right
                        simp only [beq_eq_false_iff_ne]
                        intro h
                        injection h with h2
                        exact hcode h2.symm
                      rw [hqnew] at hstep
                      simp only [Bool.toNat_false] at hstep
                      omega
  | sendMessage c0 text t r =>
      cases hg : getKey? s.sessions c0 with
      | none =>
          have hna : applyEvent s (.sendMessage c0 text t r) = (s, []) := by
            simp [applyEvent, hg]
          rw [hna]
          exact ⟨hnd, hteams, hnoempty, hcount⟩
      | some sess =>
          cases hc : sess.connected with
          | false =>
              have hna : applyEvent s (.sendMessage c0 text t r) = (s, []) := by
                simp [applyEvent, hg, hc]
              rw [hna]
              exact ⟨hnd, hteams, hnoempty, hcount⟩
          | true =>
              rw [applyEvent_send s c0 sess text t r hg hc]
              obtain ⟨h1, h2, h3⟩ := handleSend_keeps s c0 sess text t r
              exact memberInv_of_eq s _ h1 h2 h3 ⟨hnd, hteams, hnoempty, hcount⟩
  | deleteMessage c0 id =>
      cases hg : getKey? s.sessions c0 with
      | none =>
          have hna : applyEvent s (.deleteMessage c0 id) = (s, []) := by
            simp [applyEvent, hg]
          rw [hna]
          exact ⟨hnd, hteams, hnoempty, hcount⟩
      | some sess =>
          cases hc : sess.connected with
          | false =>
              have hna : applyEvent s (.deleteMessage c0 id) = (s, []) := by
                simp [applyEvent, hg, hc]
              rw [hna]
              exact ⟨hnd, hteams, hnoempty, hcount⟩
          | true =>
              rw [applyEvent_delete s c0 sess id hg hc]
              obtain ⟨h1, h2, h3⟩ := handleDelete_keeps s c0 sess id
              exact memberInv_of_eq s _ h1 h2 h3 ⟨hnd, hteams, hnoempty, hcount⟩
  | disconnect c0 t r =>
      cases hg : getKey? s.sessions c0 with
      | none =>
          have hna : applyEvent s (.disconnect c0 t r) = (s, []) := by
            simp [applyEvent, hg]
          rw [hna]
          exact ⟨hnd, hteams, hnoempty, hcount⟩
      | some sess =>
          cases hc : sess.connected with
          | false =>
              have hna : applyEvent s (.disconnect c0 t r) = (s, []) := by
                simp [applyEvent, hg, hc]
              rw [hna]
              exact ⟨hnd, hteams, hnoempty, hcount⟩
          | true =>
              rw [applyEvent_disconnect s c0 sess t r hg hc]
              have hS := (handleDisconnect_sessions s c0 sess t r).1
              have hT := (handleDisconnect_sessions s c0 sess t r).2
              have hnoempty2 : ∀ conn sess2,
                  getKey? (handleDisconnect s c0 sess t r).1.sessions conn = some sess2 →
                  sess2.teamCode ≠ some "" := by
                intro conn sess2 hg2
                rw [hS] at hg2
                by_cases hcc : conn = c0
                · subst hcc
                  rw [getKey?_setKey_self] at hg2
                  injection hg2 with hw
                  subst hw
                  exact hnoempty conn sess hg
                · rw [getKey?_setKey_ne _ _ _ _ (fun h => hcc h.symm)] at hg2
                  exact hnoempty conn sess2 hg2
              refine ⟨?_, ?_, hnoempty2, ?_⟩
              · rw [hS]
                exact nodup_keys_setKey _ _ _ hnd
              · rw [hT]
                exact hteams
              · intro code
                unfold memberCountOf countAttached
                rw [hS]
                have hstep := countP_attached_setKey s.sessions c0 sess
                  { sess with connected := false } code hnd hg
                have hqnew : attachedP code (c0, { sess with connected := false })
                    = false := by
                  simp [attachedP]
                rw [hqnew] at hstep
                simp only [Bool.toNat_false, Nat.add_zero] at hstep
                rw [show List.countP (attachedP code)
                      (setKey s.sessions c0 { sess with connected := false })
                    = List.countP (attachedP code) s.sessions
                        - (attachedP code (c0, sess)).toNat from by omega]
                have hc0 := hcount code
                unfold memberCountOf countAttached at hc0
                cases htcv : sess.teamCode with
                | none =>
                    rw [handleDisconnect_unjoined_counts s c0 sess t r
                      (by rw [htcv]; rfl)]
                    have hqold : attachedP code (c0, sess) = false := by
                      simp [attachedP, htcv]
                    rw [hqold]
                    simp only [Bool.toNat_false, Nat.sub_zero]
                    exact hc0
                | some c =>
                    have hcne : c ≠ "" := by
                      intro h
                      subst h
                      exact hnoempty c0 sess hg htcv
                    rw [handleDisconnect_joined_counts s c0 sess c t r htcv hcne]
                    by_cases hcode : code = c
                    · subst hcode
                      rw [getKey?_setKey_self]
                      have hqold : attachedP code (c0, sess) = true := by
                        simp [attachedP, htcv, hc]
                      rw [hqold]
                      have hpos : 1 ≤ List.countP (attachedP code) s.sessions :=
                        countP_attached_pos s.sessions c0 sess code hg hqold
                      have hsome : ∃ n, getKey? s.roomUserCounts code = some n ∧ 0 < n := by
                        cases hgc : getKey? s.roomUserCounts code with
                        | none =>
                            rw [hgc] at hc0
                            simp only [Option.getD_none] at hc0
                            exfalso
                            omega
                        | some n =>
                            rw [hgc] at hc0
                            simp only [Option.getD_some] at hc0
                            exact ⟨n, rfl, by omega⟩
                      obtain ⟨n, hgc, hn⟩ := hsome
                      rw [hgc, prevCount_some_pos n hn]
                      rw [hgc] at hc0
                      simp only [Option.getD_some] at hc0
                      simp only [Option.getD_some, Bool.toNat_true]
                      omega
                    · rw [getKey?_setKey_ne _ _ _ _ (fun h => hcode h.symm)]
                      have hqold : attachedP code (c0, sess) = false := by
                        simp only [attachedP, Bool.and_eq_false_iff]
                        right
                        rw [htcv]
                        simp only [beq_eq_false_iff_ne]
                        intro h
                        injection h with h2
                        exact hcode h2.symm
                      rw [hqold]
                      simp only [Bool.toNat_false, Nat.sub_zero]
                      exact hc0

theorem memberInv_trace (s : ServerState) (evs : List Event)
    (hInv : MemberInv s) (hok : unjoinedOk s evs = true) :
    MemberInv (applyTrace s evs) := by
  induction evs generalizing s with
  | nil => exact hInv
  | cons e es ih =>
      rw [unjoinedOk] at hok
      obtain ⟨h1, h2⟩ := Bool.and_eq_true_iff.mp hok
      exact ih _ (memberInv_step s e hInv h1) h2

/-- C1 (amended): provided the registry has no entry for the empty
string and every `join-room` event of the trace reaches a connection
that has not joined yet (the state machine's `Unjoined` precondition,
which the code itself does not enforce), the stored `memberCount` of
every room code equals the number of currently-attached sessions whose
`teamCode` is that code in every reachable state; counts are `Nat`s, so
they are never negative. -/
theorem member_count_matches_attached (teams : List (String × String))
    (evs : List Event) (code : String)
    (hteams : getKey? teams "" = none)
    (hok : unjoinedOk (initState teams) evs = true) :
    memberCountOf (applyTrace (initState teams) evs) code
      = countAttached (applyTrace (initState teams) evs) code := by
  have hInit : MemberInv (initState teams) := by
    refine ⟨?_, hteams, ?_, ?_⟩
    · simp [initState, keysOf]
    · intro conn sess h
      simp [initState, getKey?] at h
    · intro c
      rfl
  exact (memberInv_trace _ _ hInit hok).2.2.2 code

/-- Witness for `member_count_matches_attached`: two connections, one
join each, one disconnect; the count for `"AB"` matches the attached
sessions. -/
theorem member_count_matches_attached_witness :
    memberCountOf (applyTrace (initState [("AB", "t")])
      [.connect 0, .connect 1, .joinRoom 0 "AB" "Alice" 0 0,
       .joinRoom 1 "AB" "Bob" 1 1, .disconnect 0 2 2]) "AB"
      = countAttached (applyTrace (initState [("AB", "t")])
      [.connect 0, .connect 1, .joinRoom 0 "AB" "Alice" 0 0,
       .joinRoom 1 "AB" "Bob" 1 1, .disconnect 0 2 2]) "AB" :=
  member_count_matches_attached [("AB", "t")]
    [.connect 0, .connect 1, .joinRoom 0 "AB" "Alice" 0 0,
     .joinRoom 1 "AB" "Bob" 1 1, .disconnect 0 2 2] "AB"
    (by decide) (by decide)

/-- C1 counterexample: the claim as stated is false on the code — a
connection that issues `join-room` twice for the same room is counted
twice, so `memberCount` is 2 while only one attached session exists. -/
theorem member_count_counterexample :
    memberCountOf (applyTrace (initState [("AB", "t")])
      [.connect 0, .joinRoom 0 "AB" "x" 0 0, .joinRoom 0 "AB" "x" 1 1]) "AB" = 2 ∧
    countAttached (applyTrace (initState [("AB", "t")])
      [.connect 0, .joinRoom 0 "AB" "x" 0 0, .joinRoom 0 "AB" "x" 1 1]) "AB" = 1 := by
  decide

theorem idsInv_logOf (s : ServerState) (hInv : IdsInv s) (code : String) :
    (idsOf (logOf s code)).Nodup := by
  unfold logOf
  cases hg : getKey? s.roomMessages code with
  | none => simp [idsOf]
  | some l =>
      simp only [Option.getD_some]
      exact hInv (code, l) (mem_of_getKey? _ _ _ hg)

theorem fresh_not_mem_logOf (s : ServerState) (i : String)
    (hall : s.roomMessages.all
      (fun entry => entry.2.all (fun m => !(m.id == i))) = true)
    (code : String) : i ∉ idsOf (logOf s code) := by
  intro hmem
  unfold logOf at hmem
  cases hg : getKey? s.roomMessages code with
  | none =>
      rw [hg] at hmem
      simp [idsOf] at hmem
  | some l =>
      rw [hg] at hmem
      simp only [Option.getD_some, idsOf] at hmem
      obtain ⟨m, hm, hmid⟩ := List.mem_map.mp hmem
      rw [List.all_eq_true] at hall
      have h2 := hall (code, l) (mem_of_getKey? _ _ _ hg)
      rw [List.all_eq_true] at h2
      have h3 := h2 m hm
      rw [hmid] at h3
      simp at h3

theorem nodup_ids_append (l : List Message) (m : Message)
    (hnd : (idsOf l).Nodup) (hfresh : m.id ∉ idsOf l) :
    (idsOf (l ++ [m])).Nodup := by
  unfold idsOf at hnd hfresh ⊢
  rw [List.map_append]
  simp only [List.map_cons, List.map_nil]
  rw [List.nodup_append]
  refine ⟨hnd, List.nodup_singleton _, ?_⟩
  intro a ha hb
  rw [List.mem_singleton] at hb
  subst hb
  exact hfresh ha

theorem nodup_ids_eraseIdx (l : List Message) (i : Nat)
    (hnd : (idsOf l).Nodup) : (idsOf (l.eraseIdx i)).Nodup := by
  unfold idsOf at hnd ⊢
  exact List.Nodup.sublist ((List.eraseIdx_sublist l i).map Message.id) hnd

theorem idsInv_setKey_append (s : ServerState) (c : String) (msg : Message)
    (hInv : IdsInv s) (hfresh : msg.id ∉ idsOf (logOf s c)) :
    ∀ entry ∈ setKey s.roomMessages c (logOf s c ++ [msg]),
      (idsOf entry.2).Nodup := by
  intro entry he
  rcases mem_setKey _ _ _ _ he with h1 | h2
  · subst h1
    exact nodup_ids_append _ _ (idsInv_logOf s hInv c) hfresh
  · exact hInv entry h2

theorem idsInv_setKey_self_log (s : ServerState) (c : String)
    (hInv : IdsInv s) :
    ∀ entry ∈ setKey s.roomMessages c (logOf s c), (idsOf entry.2).Nodup := by
  intro entry he
  rcases mem_setKey _ _ _ _ he with h1 | h2
  · subst h1
    exact idsInv_logOf s hInv c
  · exact hInv entry h2

theorem handleSend_success_messages (s : ServerState) (conn : Nat)
    (sess : Session) (text : String) (t r : Nat)
    (h1 : ¬(strOf sess.teamCode = "" ∨ strOf sess.userName = ""))
    (h2 : ¬(jsTrim text = "")) :
    (handleSend s conn sess text t r).1.roomMessages
      = setKey s.roomMessages (strOf sess.teamCode)
          (logOf s (strOf sess.teamCode) ++
            [⟨msgId t r, false, some (strOf sess.userName), jsTrim text, t⟩]) := by
  rw [handleSend, if_neg h1, if_neg h2]

theorem handleJoin_success_messages (s : ServerState) (conn : Nat)
    (sess : Session) (tc nm : String) (t r : Nat)
    (hmf : ¬(tc = "" ∨ nm = ""))
    (hteam : ¬(getKey? s.teams (normalizeCode tc)).isNone = true) :
    (handleJoin s conn sess tc nm t r).1.roomMessages
      = setKey s.roomMessages (normalizeCode tc)
          (logOf s (normalizeCode tc) ++
            [⟨sysId t r, true, none, normalizeName nm ++ " joined the chat", t⟩]) := by
  rw [handleJoin, if_neg hmf, if_neg hteam]

theorem handleDelete_notfound_messages (s : ServerState) (conn : Nat)
    (sess : Session) (id : String)
    (h1 : ¬(strOf sess.teamCode = "")) (h2 : ¬(id = ""))
    (hf : findIndexJs (fun m => m.id == id) (logOf s (strOf sess.teamCode)) = none) :
    (handleDelete s conn sess id).1.roomMessages
      = setKey s.roomMessages (strOf sess.teamCode)
          (logOf s (strOf sess.teamCode)) := by
  simp only [handleDelete]
  rw [if_neg h1, if_neg h2, hf]

theorem handleDelete_found_messages (s : ServerState) (conn : Nat)
    (sess : Session) (id : String) (i : Nat)
    (h1 : ¬(strOf sess.teamCode = "")) (h2 : ¬(id = ""))
    (hf : findIndexJs (fun m => m.id == id) (logOf s (strOf sess.teamCode)) = some i) :
    (handleDelete s conn sess id).1.roomMessages
      = setKey (setKey s.roomMessages (strOf sess.teamCode)
            (logOf s (strOf sess.teamCode)))
          (strOf sess.teamCode) ((logOf s (strOf sess.teamCode)).eraseIdx i) := by
  simp only [handleDelete]
  rw [if_neg h1, if_neg h2, hf]

theorem handleDisconnect_unjoined_messages (s : ServerState) (conn : Nat)
    (sess : Session) (t r : Nat) (htc : strOf sess.teamCode = "") :
    (handleDisconnect s conn sess t r).1.roomMessages = s.roomMessages := by
  simp [handleDisconnect, htc]

theorem handleDisconnect_joined_messages (s : ServerState) (conn : Nat)
    (sess : Session) (c : String) (t r : Nat)
    (htc : sess.teamCode = some c) (hcne : c ≠ "") :
    (handleDisconnect s conn sess t r).1.roomMessages
      = setKey s.roomMessages c (logOf s c ++
          [⟨sysId t r, true, none,
            (if strOf sess.userName = "" then "A user" else strOf sess.userName)
              ++ " left the chat", t⟩]) ∨
    (handleDisconnect s conn sess t r).1.roomMessages = delKey s.roomMessages c := by
  have hstr : strOf sess.teamCode = c := by rw [htc]; rfl
  simp only [handleDisconnect, hstr]
  rw [if_neg hcne]
  by_cases h2 : prevCount (getKey? s.roomUserCounts c) - 1 > 0
  · rw [if_pos h2]
    left
    rfl
  · rw [if_neg h2]
    right
    rfl

theorem idsInv_step (s : ServerState) (e : Event)
    (hInv : IdsInv s) (hok : freshOk1 s e = true) :
    IdsInv (applyEvent s e).1 := by
  cases e with
  | connect c0 =>
      cases hg : getKey? s.sessions c0 with
      | some sess =>
          have hna : applyEvent s (.connect c0) = (s, []) := by
            simp [applyEvent, hg]
          rw [hna]
          exact hInv
      | none =>
          have hM : (applyEvent s (.connect c0)).1.roomMessages
              = s.roomMessages := by
            simp [applyEvent, hg]
          intro entry he
          rw [hM] at he
          exact hInv entry he
  | joinRoom c0 tc nm t r =>
      cases hg : getKey? s.sessions c0 with
      | none =>
          have hna : applyEvent s (.joinRoom c0 tc nm t r) = (s, []) := by
            simp [applyEvent, hg]
          rw [hna]
          exact hInv
      | some sess =>
          cases hc : sess.connected with
          | false =>
              have hna : applyEvent s (.joinRoom c0 tc nm t r) = (s, []) := by
                simp [applyEvent, hg, hc]
              rw [hna]
              exact hInv
          | true =>
              rw [applyEvent_join s c0 sess tc nm t r hg hc]
              by_cases hmf : tc = "" ∨ nm = ""
              · rw [handleJoin, if_pos hmf]
                exact hInv
              · by_cases hteam : (getKey? s.teams (normalizeCode tc)).isNone = true
                · rw [handleJoin, if_neg hmf, if_pos hteam]
                  exact hInv
                · intro entry he
                  rw [handleJoin_success_messages s c0 sess tc nm t r hmf hteam] at he
                  refine idsInv_setKey_append s (normalizeCode tc) _ hInv ?_ entry he
                  simp only [freshOk1] at hok
                  exact fresh_not_mem_logOf s (sysId t r) hok (normalizeCode tc)
  | sendMessage c0 text t r =>
      cases hg : getKey? s.sessions c0 with
      | none =>
          have hna : applyEvent s (.sendMessage c0 text t r) = (s, []) := by
            simp [applyEvent, hg]
          rw [hna]
          exact hInv
      | some sess =>
          cases hc : sess.connected with
          | false =>
              have hna : applyEvent s (.sendMessage c0 text t r) = (s, []) := by
                simp [applyEvent, hg, hc]
              rw [hna]
              exact hInv
          | true =>
              rw [applyEvent_send s c0 sess text t r hg hc]
              by_cases h1 : strOf sess.teamCode = "" ∨ strOf sess.userName = ""
              · rw [handleSend, if_pos h1]
                exact hInv
              · by_cases h2 : jsTrim text = ""
                · rw [handleSend, if_neg h1, if_pos h2]
                  exact hInv
                · intro entry he
                  rw [handleSend_success_messages s c0 sess text t r h1 h2] at he
                  refine idsInv_setKey_append s (strOf sess.teamCode) _ hInv ?_ entry he
                  simp only [freshOk1] at hok
                  exact fresh_not_mem_logOf s (msgId t r) hok (strOf sess.teamCode)
  | deleteMessage c0 id =>
      cases hg : getKey? s.sessions c0 with
      | none =>
          have hna : applyEvent s (.deleteMessage c0 id) = (s, []) := by
            simp [applyEvent, hg]
          rw [hna]
          exact hInv
      | some sess =>
          cases hc : sess.connected with
          | false =>
              have hna : applyEvent s (.deleteMessage c0 id) = (s, []) := by
                simp [applyEvent, hg, hc]
              rw [hna]
              exact hInv
          | true =>
              rw [applyEvent_delete s c0 sess id hg hc]
              by_cases h1 : strOf sess.teamCode = ""
              · rw [handleDelete, if_pos h1]
                exact hInv
              · by_cases h2 : id = ""
                · rw [handleDelete, if_neg h1, if_pos h2]
                  exact hInv
                · cases hf : findIndexJs (fun m => m.id == id)
                      (logOf s (strOf sess.teamCode)) with
                  | none =>
                      intro entry he
                      rw [handleDelete_notfound_messages s c0 sess id h1 h2 hf] at he
                      exact idsInv_setKey_self_log s _ hInv entry he
                  | some i =>
                      intro entry he
                      rw [handleDelete_found_messages s c0 sess id i h1 h2 hf] at he
                      rcases mem_setKey _ _ _ _ he with hh1 | hh2
                      · subst hh1
                        exact nodup_ids_eraseIdx _ i (idsInv_logOf s hInv _)
                      · exact idsInv_setKey_self_log s _ hInv entry hh2
  | disconnect c0 t r =>
      cases hg : getKey? s.sessions c0 with
      | none =>
          have hna : applyEvent s (.disconnect c0 t r) = (s, []) := by
            simp [applyEvent, hg]
          rw [hna]
          exact hInv
      | some sess =>
          cases hc : sess.connected with
          | false =>
              have hna : applyEvent s (.disconnect c0 t r) = (s, []) := by
                simp [applyEvent, hg, hc]
              rw [hna]
              exact hInv
          | true =>
              rw [applyEvent_disconnect s c0 sess t r hg hc]
              cases htcv : sess.teamCode with
              | none =>
                  intro entry he
                  rw [handleDisconnect_unjoined_messages s c0 sess t r
                    (by rw [htcv]; rfl)] at he
                  exact hInv entry he
              | some c =>
                  by_cases hce : c = ""
                  · intro entry he
                    rw [handleDisconnect_unjoined_messages s c0 sess t r
                      (by rw [htcv, hce]; rfl)] at he
                    exact hInv entry he
                  · rcases handleDisconnect_joined_messages s c0 sess c t r htcv hce
                        with hM | hM
                    · intro entry he
                      rw [hM] at he
                      refine idsInv_setKey_append s c _ hInv ?_ entry he
                      simp only [freshOk1] at hok
                      exact fresh_not_mem_logOf s (sysId t r) hok c
                    · intro entry he
                      rw [hM] at he
                      exact hInv entry (mem_delKey _ _ _ he)

theorem idsInv_trace (s : ServerState) (evs : List Event)
    (hInv : IdsInv s) (hok : freshOk s evs = true) :
    IdsInv (applyTrace s evs) := by
  induction evs generalizing s with
  | nil => exact hInv
  | cons e es ih =>
      rw [freshOk] at hok
      obtain ⟨h1, h2⟩ := Bool.and_eq_true_iff.mp hok
      exact ih _ (idsInv_step s e hInv h1) h2

/-- C9 (amended): provided every generated message id is fresh at the
moment it is produced (which the `Date.now()` + random-suffix scheme
makes likely but does not guarantee), the ids of the messages in any
room's log are pairwise distinct in every reachable state; every append
keeps the property, as do delete and room clearing. -/
theorem message_ids_nodup (teams : List (String × String))
    (evs : List Event) (code : String)
    (hok : freshOk (initState teams) evs = true) :
    (idsOf (logOf (applyTrace (initState teams) evs) code)).Nodup := by
  have hInit : IdsInv (initState teams) := by
    intro entry he
    simp [initState] at he
  exact idsInv_logOf _ (idsInv_trace _ _ hInit hok) code

/-- Witness for `message_ids_nodup`: a join, a send and a leave notice
generated at distinct timestamps. -/
theorem message_ids_nodup_witness :
    (idsOf (logOf (applyTrace (initState [("AB", "t")])
      [.connect 0, .connect 1, .joinRoom 0 "AB" "Alice" 0 0,
       .joinRoom 1 "AB" "Bob" 1 1, .sendMessage 0 "hi" 2 2,
       .disconnect 0 3 3]) "AB")).Nodup :=
  message_ids_nodup [("AB", "t")]
    [.connect 0, .connect 1, .joinRoom 0 "AB" "Alice" 0 0,
     .joinRoom 1 "AB" "Bob" 1 1, .sendMessage 0 "hi" 2 2,
     .disconnect 0 3 3] "AB" (by decide)

/-- C9 counterexample: two joins processed in the same millisecond with
the same random suffix produce two messages with the same id in the same
room log — ids are not unconditionally unique at every instant. -/
theorem message_ids_counterexample :
    idsOf (logOf (applyTrace (initState [("AB", "t")])
      [.connect 0, .connect 1, .joinRoom 0 "AB" "A" 5 7,
       .joinRoom 1 "AB" "B" 5 7]) "AB") = ["sys-5-7", "sys-5-7"] ∧
    ¬ (idsOf (logOf (applyTrace (initState [("AB", "t")])
      [.connect 0, .connect 1, .joinRoom 0 "AB" "A" 5 7,
       .joinRoom 1 "AB" "B" 5 7]) "AB")).Nodup := by
  constructor
  · decide
  · decide

/-- C5 counterexample: joining with a name of only whitespace succeeds
(the ack is ok, so the session is in the `Joined` state), but a
subsequent `send` still fails with the `NotJoined` error — so `NotJoined`
is not raised *exactly* when the session is unjoined. -/
theorem send_not_joined_counterexample :
    (applyEvent (applyTrace (initState [("AB", "t")]) [.connect 0])
        (.joinRoom 0 "AB" " " 0 0)).2 =
      [.roomHistory 0 [],
       .message "AB" ⟨"sys-0-0", true, none, " joined the chat", 0⟩,
       .ack 0 true none] ∧
    (applyEvent (applyTrace (initState [("AB", "t")])
        [.connect 0, .joinRoom 0 "AB" " " 0 0]) (.sendMessage 0 "hi" 1 1)).2 =
      [.ack 0 false (some "You are not in a room")] ∧
    (applyEvent (applyTrace (initState [("AB", "t")])
        [.connect 0, .joinRoom 0 "AB" " " 0 0]) (.sendMessage 0 "hi" 1 1)).1 =
      applyTrace (initState [("AB", "t")]) [.connect 0, .joinRoom 0 "AB" " " 0 0] := by
  refine ⟨?_, ?_, ?_⟩
  · decide
  · decide
  · decide

end ConnectSphere
